import Mathlib

/-!
Verification development for the `shadowfansub/projects` subtitle toolkit.

This file gives a shallow embedding of the cross-reference / text-matching
engine shared by `cross-reference.py` (namespace `CR`) and `report.py`
(namespace `Rep`), together with theorems settling the specification claims.

Modelling conventions:
* Python strings are Lean `String`s (character-level operations work on
  `List Char`);
* Python's `re` whitespace class and `str.strip` are modelled over the six
  ASCII whitespace characters (the inputs of interest are ASCII);
* the filesystem is explicit data: a file is a name plus a decoding oracle
  (one optional line list per attempted encoding), a folder is a file list in
  directory-listing order, a base directory is a named folder list;
* Python floats are modelled as `ℚ` (the similarity ratio and threshold are
  ratios of small integers, exactly representable);
* a Python exception escaping a function is modelled as `Except.error ()`.
-/

/-- The six ASCII whitespace characters matched by Python's `\s` class and
stripped by `str.strip` (ASCII fragment). -/
def pySpace (c : Char) : Bool :=
  c = ' ' || c = '\t' || c = '\n' || c = '\r' || c = '\x0b' || c = '\x0c'

/-- `re.sub(r"\\N", " ", text)`: replace each literal backslash-N pair by one
space, scanning left to right. -/
def replN : List Char → List Char
  | [] => []
  | '\\' :: 'N' :: rest => ' ' :: replN rest
  | c :: rest => c :: replN rest

/-- `re.sub(r"\s+", " ", text)`: collapse each maximal whitespace run to a
single space.  The boolean flag records whether the previous character was
part of a whitespace run. -/
def collapseWs : Bool → List Char → List Char
  | _, [] => []
  | prev, c :: rest =>
    if pySpace c then
      if prev then collapseWs true rest else ' ' :: collapseWs true rest
    else c :: collapseWs false rest

/-- `str.strip()` on a character list (ASCII whitespace). -/
def stripChars (l : List Char) : List Char :=
  ((l.dropWhile pySpace).reverse.dropWhile pySpace).reverse

/-- `str.strip()`. -/
def pyStrip (s : String) : String := ⟨stripChars s.data⟩

/-- `normalize_text` (identical in `cross-reference.py` and `report.py`):
empty input maps to the empty string, otherwise replace `\N` markers by
spaces, collapse whitespace runs, and strip. -/
def normalize_text (s : String) : String :=
  if s = "" then "" else ⟨stripChars (collapseWs false (replN s.data))⟩

/-- `l` begins with `p` (Python `str.startswith` on the remaining suffix). -/
def startsWithL : List Char → List Char → Bool
  | _, [] => true
  | [], _ :: _ => false
  | c :: cs, p :: ps => c = p && startsWithL cs ps

/-- Python's substring test `p in l`. -/
def containsL : List Char → List Char → Bool
  | l, p =>
    match l with
    | [] => p.isEmpty
    | _ :: rest => startsWithL l p || containsL rest p

/-- `line.startswith(p)`. -/
def pyStartsWith (line p : String) : Bool := startsWithL line.data p.data

/-- `p in line` (substring containment). -/
def pyContains (line p : String) : Bool := containsL line.data p.data

/-- `l` ends with `p` (Python `str.endswith`). -/
def endsWithL (l p : List Char) : Bool := startsWithL l.reverse p.reverse

/-- The scanning loop of Python's `str.split(sep)` for a non-empty `sep`:
cut at each leftmost non-overlapping occurrence of `sep`.  Fuel-driven; fuel
`l.length` suffices since every step consumes at least one character. -/
def splitGo (sep : List Char) : Nat → List Char → List Char → List (List Char)
  | _, [], acc => [acc.reverse]
  | 0, rest, acc => [acc.reverse ++ rest]
  | fuel + 1, c :: cs, acc =>
    if startsWithL (c :: cs) sep then
      acc.reverse :: splitGo sep fuel (List.drop sep.length (c :: cs)) []
    else splitGo sep fuel cs (c :: acc)

/-- Python `s.split(sep)` for a non-empty separator. -/
def pySplit (s sep : String) : List String :=
  (splitGo sep.data s.data.length s.data []).map String.mk

/-- `enumerate(l, start)`. -/
def pyEnum (start : Nat) : List α → List (Nat × α)
  | [] => []
  | x :: xs => (start, x) :: pyEnum (start + 1) xs

/-- `s.zfill(w)` for non-negative digit strings: left-pad with zeros. -/
def pyZfill (s : String) (w : Nat) : String :=
  if w ≤ s.length then s else ⟨List.replicate (w - s.length) '0' ++ s.data⟩

/-- `" ".join(l)`. -/
def joinSpace : List String → String
  | [] => ""
  | [x] => x
  | x :: y :: rest => x ++ " " ++ joinSpace (y :: rest)

/-- Python truthiness of an optional string (`if text:`): present and
non-empty. -/
def optTruthy : Option String → Bool
  | none => false
  | some s => s ≠ ""

/-- `extract_text_from_line` / `extract_text_from_dialogue` (identical in the
two tools): split on the two-comma delimiter; with at least two fields return
the last one stripped, otherwise nothing. -/
def extract_text_from_line (line : String) : Option String :=
  let parts := pySplit line ",,"
  if 2 ≤ parts.length then some (pyStrip (parts.getLastD "")) else none

/-- The four text encodings attempted by `read_ass_file`, in order. -/
inductive Enc
  | utf8sig | utf8 | latin1 | cp1252
deriving DecidableEq

/-- A file on disk: its name and, per attempted encoding, the line list the
open/read either yields (`some`, lines as `readlines` returns them) or fails
to yield (`none`, modelling any `open`/decode exception). -/
structure RawFile where
  name : String
  decode : Enc → Option (List String)

/-- The encoding order `["utf-8-sig", "utf-8", "latin-1", "cp1252"]`. -/
def encOrder : List Enc := [.utf8sig, .utf8, .latin1, .cp1252]

/-- The encoding-probing loop of `read_ass_file`: first successful attempt
wins. -/
def readTry (f : RawFile) : List Enc → List String
  | [] => []
  | e :: rest =>
    match f.decode e with
    | some ls => ls
    | none => readTry f rest

/-- `read_ass_file` (identical in the two tools): try the four encodings in
order, return the first line list obtained, or the empty list if every
attempt fails.  No exception escapes (failure is the `[]` value). -/
def read_ass_file (f : RawFile) : List String := readTry f encOrder

deriving instance DecidableEq for Except

/-- A directory: its files in directory-listing order. -/
structure Folder where
  files : List RawFile

/-- `folder.glob("*.ass")`: the files whose name matches `*.ass`, in listing
order.  `pathlib.Path.glob` matches every name ending in `.ass`, dot-named
(hidden) files included — unlike the `glob` module, pathlib does not skip
them. -/
def globAss (fo : Folder) : List RawFile :=
  fo.files.filter fun f => endsWithL f.name.data ".ass".data

/-- The base directory handed to `process_files`: named subfolders in
directory-listing order. -/
structure BaseDir where
  dirs : List (String × Folder)

/-- `base_dir / name` combined with the `exists()`/`is_dir()` check: look the
subfolder up by name. -/
def dirLookup (bd : BaseDir) (name : String) : Option Folder :=
  (bd.dirs.find? fun d => d.1 == name).map (·.2)

namespace CR

/-- The state machine of `get_event_lines`: `inEv`/`fmt` are the `in_events`
and `found_format` flags; returns the collected event lines and the final
flag values. -/
def eventsSt (inEv fmt : Bool) : List String → (List String × Bool × Bool)
  | [] => ([], inEv, fmt)
  | l :: ls =>
    if pyContains l "[Events]" then eventsSt true fmt ls
    else if inEv then
      if pyStartsWith l "Format:" then eventsSt inEv true ls
      else if fmt && (pyStartsWith l "Dialogue:" || pyStartsWith l "Comment:") then
        let r := eventsSt inEv fmt ls
        (l :: r.1, r.2)
      else eventsSt inEv fmt ls
    else eventsSt inEv fmt ls

/-- `get_event_lines`: the dialogue/comment lines collected after the
`[Events]` header and a `Format:` line have been seen. -/
def get_event_lines (f : RawFile) : List String :=
  (eventsSt false false (read_ass_file f)).1

end CR

/-! ## difflib.SequenceMatcher (isjunk = None), as used by
`calculate_similarity` in `cross-reference.py`. -/

namespace DL

/-- Ascending list of the indices at which `c` occurs in `b` (the raw entry
of `__chain_b`'s `b2j` dictionary). -/
def occIdx (b : List Char) (c : Char) : List Nat :=
  (pyEnum 0 b).filterMap fun p => if p.2 = c then some p.1 else none

/-- `b2j` after `__chain_b`: with `isjunk = None` there is no junk, and the
autojunk heuristic drops "popular" elements (more than `len(b) // 100 + 1`
occurrences) when `len(b) >= 200`. -/
def b2j (b : List Char) (c : Char) : List Nat :=
  let idxs := occIdx b c
  if 200 ≤ b.length && b.length / 100 + 1 < idxs.length then [] else idxs

/-- Inner loop of `find_longest_match` for one value of `i`: walk the
ascending index list `b2j[a[i]]`, skipping `j < blo`, stopping at `j ≥ bhi`,
building `newj2len` and updating the best block.  `j2len` is the previous
row (0 encodes an absent key; `j2len.get(j-1, 0)` with `j = 0` reads the
absent key `-1`, hence the explicit `j = 0` case). -/
def flmInner (blo bhi i : Nat) (j2len : Nat → Nat) :
    List Nat → (Nat → Nat) → (Nat × Nat × Nat) → ((Nat → Nat) × (Nat × Nat × Nat))
  | [], nj, best => (nj, best)
  | j :: js, nj, best =>
    if j < blo then flmInner blo bhi i j2len js nj best
    else if bhi ≤ j then (nj, best)
    else
      let k := (if j = 0 then 0 else j2len (j - 1)) + 1
      let nj' : Nat → Nat := fun x => if x = j then k else nj x
      let best' := if best.2.2 < k then (i + 1 - k, j + 1 - k, k) else best
      flmInner blo bhi i j2len js nj' best'

/-- Outer loop of `find_longest_match` over `i in range(alo, ahi)`;
`cnt = ahi - i` is the remaining iteration count.  (The character default in
`a.getD` is never read: `i < ahi ≤ len(a)` on every iteration.) -/
def flmOuter (a : List Char) (bj : Char → List Nat) (blo bhi : Nat) :
    Nat → Nat → (Nat → Nat) → (Nat × Nat × Nat) → (Nat × Nat × Nat)
  | 0, _, _, best => best
  | cnt + 1, i, j2len, best =>
    let r := flmInner blo bhi i j2len (bj (a.getD i ' ')) (fun _ => 0) best
    flmOuter a bj blo bhi cnt (i + 1) r.1 r.2

/-- The first post-loop extension of `find_longest_match` (extend the block
downward over matching non-junk elements); the junk set is empty here, so
only the element-equality guards remain.  Fuel `besti` bounds the descent. -/
def extLo (a b : List Char) (alo blo : Nat) :
    Nat → (Nat × Nat × Nat) → (Nat × Nat × Nat)
  | 0, st => st
  | fuel + 1, (bi, bj, bk) =>
    if alo < bi && blo < bj && a.getD (bi - 1) ' ' = b.getD (bj - 1) ' ' then
      extLo a b alo blo fuel (bi - 1, bj - 1, bk + 1)
    else (bi, bj, bk)

/-- The second post-loop extension (extend the block upward); fuel `ahi`
bounds the ascent. -/
def extHi (a b : List Char) (ahi bhi : Nat) :
    Nat → (Nat × Nat × Nat) → (Nat × Nat × Nat)
  | 0, st => st
  | fuel + 1, (bi, bj, bk) =>
    if bi + bk < ahi && bj + bk < bhi && a.getD (bi + bk) ' ' = b.getD (bj + bk) ' ' then
      extHi a b ahi bhi fuel (bi, bj, bk + 1)
    else (bi, bj, bk)

/-- `find_longest_match(alo, ahi, blo, bhi)` with `isjunk = None`: the DP
over rows `alo ≤ i < ahi` followed by the two non-junk extensions (the two
junk extensions never fire since the junk set is empty). -/
def findLongestMatch (a b : List Char) (bj : Char → List Nat)
    (alo ahi blo bhi : Nat) : Nat × Nat × Nat :=
  let st := flmOuter a bj blo bhi (ahi - alo) alo (fun _ => 0) (alo, blo, 0)
  extHi a b ahi bhi ahi (extLo a b alo blo st.1 st)

/-- Total size of all matching blocks found by `get_matching_blocks`'s
divide-and-conquer: the longest block plus the totals of the two flanking
subproblems (queued only when both flanks are non-empty, exactly as in
difflib; an empty flank contributes 0 either way).  Fuel-driven recursion;
`ratio` only sums block sizes, so block order is irrelevant. -/
def mtGo (a b : List Char) (bj : Char → List Nat) :
    Nat → Nat → Nat → Nat → Nat → Nat
  | 0, _, _, _, _ => 0
  | fuel + 1, alo, ahi, blo, bhi =>
    let r := findLongestMatch a b bj alo ahi blo bhi
    let i := r.1
    let j := r.2.1
    let k := r.2.2
    if k = 0 then 0
    else
      k + (if alo < i && blo < j then mtGo a b bj fuel alo i blo j else 0)
        + (if i + k < ahi && j + k < bhi then mtGo a b bj fuel (i + k) ahi (j + k) bhi else 0)

/-- `sum(triple[-1] for triple in get_matching_blocks())`: the merging pass
and the terminating sentinel in difflib preserve this sum.  The fuel
`|a| + |b| + 1` dominates the recursion depth (each level strictly shrinks
`(ahi - alo) + (bhi - blo)`). -/
def matchesTotal (a b : List Char) : Nat :=
  mtGo a b (b2j b) (a.length + b.length + 1) 0 a.length 0 b.length

/-- `SequenceMatcher(None, a, b).ratio() * 100` as an exact rational:
`2 * M / (len(a) + len(b)) * 100`, and 100 for two empty sequences
(`_calculate_ratio` returns 1.0 when the total length is 0). -/
def ratio100 (a b : List Char) : ℚ :=
  let ln := a.length + b.length
  if ln = 0 then 100 else mkRat (200 * matchesTotal a b) ln

end DL

/-- `calculate_similarity` (`cross-reference.py`): the SequenceMatcher ratio
of the two normalized texts, scaled to a percentage. -/
def calculate_similarity (t1 t2 : String) : ℚ :=
  DL.ratio100 (normalize_text t1).data (normalize_text t2).data

/-- ASCII decimal digit. -/
def isDigitC (c : Char) : Bool := '0' ≤ c && c ≤ '9'

/-- `str.isdigit()` on the ASCII fragment: non-empty and all digits. -/
def pyIsDigitStr (s : String) : Bool := s ≠ "" && s.data.all isDigitC

/-- Numeric value of an ASCII digit string. -/
def digitsToNat (l : List Char) : Nat :=
  l.foldl (fun acc c => acc * 10 + (c.toNat - '0'.toNat)) 0

namespace CR

/-- The four classification statuses (`EXACT MATCH`, `SIMILAR`, `DIFFERENT`,
`NOT FOUND`). -/
inductive MatchStatus
  | exact | similar | different | notFound
deriving DecidableEq, Repr

/-- `get_match_status(text1, text2, fuzzy_threshold)`: not-found on a falsy
argument, exact on normalized equality, then similar/different by comparing
the similarity against the threshold. -/
def get_match_status (t1 t2 : String) (θ : ℚ) : MatchStatus :=
  if t1 = "" ∨ t2 = "" then .notFound
  else if normalize_text t1 = normalize_text t2 then .exact
  else if θ ≤ calculate_similarity t1 t2 then .similar
  else .different

/-- A character allowed inside the bracket payload of the tag pattern
(`[0-9,\s]`). -/
def isPayloadC (c : Char) : Bool := isDigitC c || c = ',' || pySpace c

/-- Attempt the regex `CR-(\d+)-\[([0-9,\s]+)\]` at the start of `cs`:
literal `CR-`, then a maximal non-empty digit run (group 1), then `-[`, then
a maximal non-empty payload run (group 2), then `]`.  The character classes
exclude the following literals, so maximal runs realise the greedy
backtracking semantics exactly. -/
def crMatchAt : List Char → Option (List Char × List Char)
  | 'C' :: 'R' :: '-' :: rest =>
    let ds := rest.takeWhile isDigitC
    if ds = [] then none
    else
      match rest.drop ds.length with
      | '-' :: '[' :: rest2 =>
        let ps := rest2.takeWhile isPayloadC
        if ps = [] then none
        else
          match rest2.drop ps.length with
          | ']' :: _ => some (ds, ps)
          | _ => none
      | _ => none
  | _ => none

/-- `re.search`: try the pattern at each position, leftmost match wins. -/
def crSearch : List Char → Option (List Char × List Char)
  | [] => none
  | c :: cs =>
    match crMatchAt (c :: cs) with
    | some r => some r
    | none => crSearch cs

/-- `int(x.strip())` for a payload item `x` (whose characters are digits,
commas having been consumed by the split, and whitespace): succeeds exactly
when the stripped item is a non-empty digit string, else raises
`ValueError`. -/
def parseIntStrict (s : String) : Except Unit Nat :=
  let t := pyStrip s
  if t ≠ "" ∧ t.data.all isDigitC then .ok (digitsToNat t.data) else .error ()

/-- `find_cross_reference_pattern(line)`: `.ok none` when the regex does not
match (the Python `None, None`), otherwise the zero-padded folder group and
the parsed line-number list; `.error` models the uncaught `ValueError` from
`int` on an empty item (e.g. payload `","`). -/
def find_cross_reference_pattern (line : String) :
    Except Unit (Option (String × List Nat)) :=
  match crSearch line.data with
  | none => .ok none
  | some (ds, ps) =>
    match pySplit (String.mk ps) "," |>.mapM parseIntStrict with
    | .error e => .error e
    | .ok nums => .ok (some (pyZfill (String.mk ds) 2, nums))

/-- The per-ordinal body of the loop in `get_text_from_lines`: for a
requested ordinal `n`, the extracted text of the `n`-th event line when `n`
is in range and that text is truthy. -/
def ordText (ev : List String) (n : Nat) : Option String :=
  if 1 ≤ n ∧ n ≤ ev.length then
    match extract_text_from_line (ev.getD (n - 1) "") with
    | some t => if t ≠ "" then some t else none
    | none => none
  else none

/-- `get_text_from_lines(file_path, line_numbers)`: space-join the truthy
extracted texts at the requested ordinals, `none` when every ordinal yields
nothing. -/
def get_text_from_lines (f : RawFile) (nums : List Nat) : Option String :=
  let ev := get_event_lines f
  let texts := nums.filterMap (ordText ev)
  if texts ≠ [] then some (joinSpace texts) else none

/-- The file loop of `find_text_in_folder`: first file whose
`get_text_from_lines` result is truthy wins. -/
def ftifGo (nums : List Nat) : List RawFile → Option (String × String × List Nat)
  | [] => none
  | f :: fs =>
    match get_text_from_lines f nums with
    | some t => if t ≠ "" then some (f.name, t, nums) else ftifGo nums fs
    | none => ftifGo nums fs

/-- `find_text_in_folder(target_folder, line_numbers)` (explicit mode):
nothing when the folder is absent, else scan the `*.ass` files in listing
order. -/
def find_text_in_folder (folder : Option Folder) (nums : List Nat) :
    Option (String × String × List Nat) :=
  match folder with
  | none => none
  | some fo => ftifGo nums (globAss fo)

/-- One Match Result row of `process_files` (the presentation-only
`cross_ref` display string is not modelled; `target_line_numbers` stores the
requested ordinals, exactly as the source does). -/
structure CResult where
  folder : String
  file : String
  line_num : Nat
  target_folder : String
  target_line_numbers : List Nat
  text : String
  target_file : Option String
  target_text : Option String
  similarity : Option ℚ
  status : MatchStatus
deriving DecidableEq, Repr

/-- The target-dependent fields of a Match Result: `target_file` and
`target_text` come from the locator's triple unconditionally; `similarity`
and `status` are set only behind the `if target_file and target_text`
truthiness guard, else they stay at their `None` / NOT FOUND initial
values. -/
def targetFields (θ : ℚ) (text : String)
    (fres : Option (String × String × List Nat)) :
    Option String × Option String × Option ℚ × MatchStatus :=
  if optTruthy (fres.map (·.1)) ∧ optTruthy (fres.map (·.2.1)) then
    (fres.map (·.1), fres.map (·.2.1),
     some (calculate_similarity text ((fres.map (·.2.1)).getD "")),
     get_match_status text ((fres.map (·.2.1)).getD "") θ)
  else (fres.map (·.1), fres.map (·.2.1), none, .notFound)

/-- The body of `process_files` for one enumerated event line: parse the
tag (possibly raising), apply the two truthiness guards, resolve the target
and classify. -/
def lineResult (bd : BaseDir) (θ : ℚ) (folderName fileName : String)
    (ln : Nat) (line : String) : Except Unit (Option CResult) :=
  match find_cross_reference_pattern line with
  | .error e => .error e
  | .ok none => .ok none
  | .ok (some (tfn, tlns)) =>
    if tfn = "" ∨ tlns = [] then .ok none
    else
      match extract_text_from_line line with
      | none => .ok none
      | some text =>
        if text = "" then .ok none
        else
          .ok (some
            { folder := folderName, file := fileName, line_num := ln
              target_folder := tfn, target_line_numbers := tlns, text := text
              target_file :=
                (targetFields θ text (find_text_in_folder (dirLookup bd tfn) tlns)).1
              target_text :=
                (targetFields θ text (find_text_in_folder (dirLookup bd tfn) tlns)).2.1
              similarity :=
                (targetFields θ text (find_text_in_folder (dirLookup bd tfn) tlns)).2.2.1
              status :=
                (targetFields θ text (find_text_in_folder (dirLookup bd tfn) tlns)).2.2.2 })

/-- The event-line loop of `process_files` over one file. -/
def lineLoop (bd : BaseDir) (θ : ℚ) (folderName fileName : String) :
    List (Nat × String) → Except Unit (List CResult)
  | [] => .ok []
  | (ln, line) :: rest =>
    match lineResult bd θ folderName fileName ln line with
    | .error e => .error e
    | .ok none => lineLoop bd θ folderName fileName rest
    | .ok (some r) =>
      match lineLoop bd θ folderName fileName rest with
      | .error e => .error e
      | .ok rs => .ok (r :: rs)

/-- The file loop of `process_files` over one source folder. -/
def fileLoop (bd : BaseDir) (θ : ℚ) (folderName : String) :
    List RawFile → Except Unit (List CResult)
  | [] => .ok []
  | f :: fs =>
    match lineLoop bd θ folderName f.name (pyEnum 1 (get_event_lines f)) with
    | .error e => .error e
    | .ok rs =>
      match fileLoop bd θ folderName fs with
      | .error e => .error e
      | .ok rs' => .ok (rs ++ rs')

/-- The folder loop of `process_files` over the zero-padded folder names. -/
def folderLoop (bd : BaseDir) (θ : ℚ) : List String → Except Unit (List CResult)
  | [] => .ok []
  | name :: names =>
    match dirLookup bd name with
    | none => folderLoop bd θ names
    | some fo =>
      match fileLoop bd θ name (globAss fo) with
      | .error e => .error e
      | .ok rs =>
        match folderLoop bd θ names with
        | .error e => .error e
        | .ok rs' => .ok (rs ++ rs')

/-- `process_files(base_path, folder_range, fuzzy_threshold)` of
`cross-reference.py` (the existing base directory is the `BaseDir` value;
a missing base path aborts the process before producing results and is not
modelled).  `.error` models an uncaught exception escaping the run. -/
def process_files (bd : BaseDir) (folderRange : List Nat) (θ : ℚ) :
    Except Unit (List CResult) :=
  folderLoop bd θ (folderRange.map fun n => pyZfill (Nat.repr n) 2)

end CR


namespace Rep

/-- ASCII lowercasing (`str.lower` / `re.IGNORECASE` on the ASCII
fragment). -/
def lowerC (c : Char) : Char :=
  if 'A' ≤ c && c ≤ 'Z' then Char.ofNat (c.toNat + 32) else c

/-- Case-insensitive literal match of `kw` (already lowercase) at the head of
`cs`; returns the remaining suffix on success. -/
def kwMatch : List Char → List Char → Option (List Char)
  | [], rest => some rest
  | _ :: _, [] => none
  | k :: ks, c :: cs => if lowerC c = k then kwMatch ks cs else none

/-- Attempt `(replay|preview)\s+(\d{1,3})` at the start of `cs`: the
alternation tries `replay` first; `\s+` is a maximal non-empty whitespace
run (digits are not whitespace, so greediness needs no backtracking);
`\d{1,3}` takes greedily up to three digits.  Group 1 is returned already
lowercased (`match.group(1).lower()`). -/
def fplTry (kw : String) (cs : List Char) : Option (String × String) :=
  match kwMatch kw.data cs with
  | none => none
  | some rest =>
    let sp := rest.takeWhile pySpace
    if sp = [] then none
    else
      let ds := ((rest.drop sp.length).takeWhile isDigitC).take 3
      if ds = [] then none else some (kw, String.mk ds)

/-- One position of the regex search. -/
def fplMatchAt (cs : List Char) : Option (String × String) :=
  match fplTry "replay" cs with
  | some r => some r
  | none => fplTry "preview" cs

/-- `re.search` for the keyword pattern: leftmost match wins. -/
def fplSearch : List Char → Option (String × String)
  | [] => none
  | c :: cs =>
    match fplMatchAt (c :: cs) with
    | some r => some r
    | none => fplSearch cs

/-- `find_pattern_in_line(line)`. -/
def find_pattern_in_line (line : String) : Option (String × String) :=
  fplSearch line.data

/-- Python division of two lengths: `ZeroDivisionError` on a zero
divisor. -/
def pyDivQ (x y : Nat) : Except Unit ℚ :=
  if y = 0 then .error () else .ok (mkRat x y)

/-- The running state of `find_text_in_folder`: the current best match
(file, extracted text, raw line number) and its score. -/
def St := Option (String × String × Nat) × ℚ

/-- One candidate dialogue line of `find_text_in_folder`: return on an exact
normalized match, otherwise run the two containment updates in sequence,
each replacing the best only on a strictly greater score. -/
def candStep (nq fname : String) (ln : Nat) (ext : String) (st : St) :
    Except Unit (Sum (String × String × Nat) St) :=
  let nt := normalize_text ext
  if nt = nq then .ok (.inl (fname, ext, ln))
  else
    let st1 : Except Unit St :=
      if pyContains nt nq then
        match pyDivQ nq.length nt.length with
        | .error e => .error e
        | .ok sc => .ok (if st.2 < sc then (some (fname, ext, ln), sc) else st)
      else .ok st
    match st1 with
    | .error e => .error e
    | .ok s1 =>
      if pyContains nq nt then
        match pyDivQ nt.length nq.length with
        | .error e => .error e
        | .ok sc => .ok (.inr (if s1.2 < sc then (some (fname, ext, ln), sc) else s1))
      else .ok (.inr s1)

/-- The line loop of `find_text_in_folder` over one file's raw lines. -/
def repLineLoop (nq fname : String) :
    List (Nat × String) → St → Except Unit (Sum (String × String × Nat) St)
  | [], st => .ok (.inr st)
  | (ln, line) :: rest, st =>
    if pyContains line "Dialogue:" then
      match extract_text_from_line line with
      | none => repLineLoop nq fname rest st
      | some ext =>
        if ext = "" then repLineLoop nq fname rest st
        else
          match candStep nq fname ln ext st with
          | .error e => .error e
          | .ok (.inl done) => .ok (.inl done)
          | .ok (.inr st') => repLineLoop nq fname rest st'
    else repLineLoop nq fname rest st

/-- The file loop of `find_text_in_folder`. -/
def repFileLoop (nq : String) :
    List RawFile → St → Except Unit (Option (String × String × Nat))
  | [], st => .ok st.1
  | f :: fs, st =>
    match repLineLoop nq f.name (pyEnum 1 (read_ass_file f)) st with
    | .error e => .error e
    | .ok (.inl done) => .ok (some done)
    | .ok (.inr st') => repFileLoop nq fs st'

/-- `find_text_in_folder(target_folder, search_text)` (free-text mode):
normalize the query, return the first exact normalized match, otherwise the
best containment match; `.error` models an uncaught `ZeroDivisionError`. -/
def find_text_in_folder (folder : Option Folder) (search : String) :
    Except Unit (Option (String × String × Nat)) :=
  match folder with
  | none => .ok none
  | some fo => repFileLoop (normalize_text search) (globAss fo) (none, 0)

/-- One result row of `report.py`'s `process_files`. -/
structure RResult where
  folder : String
  file : String
  line_num : Nat
  pattern_type : String
  pattern_number : String
  text : String
  target_file : Option String
  target_text : Option String
  target_line_num : Option Nat
deriving DecidableEq, Repr

/-- The body of `report.py`'s `process_files` for one enumerated raw line. -/
def rlineResult (bd : BaseDir) (folderName fileName : String)
    (ln : Nat) (line : String) : Except Unit (Option RResult) :=
  if pyContains line "Dialogue:" then
    match find_pattern_in_line line with
    | none => .ok none
    | some (pt, num) =>
      if pt = "" ∨ num = "" then .ok none
      else
        match extract_text_from_line line with
        | none => .ok none
        | some text =>
          if text = "" then .ok none
          else
            match find_text_in_folder (dirLookup bd (pyZfill num 2)) text with
            | .error e => .error e
            | .ok fres =>
              .ok (some
                { folder := folderName, file := fileName, line_num := ln
                  pattern_type := pt, pattern_number := pyZfill num 2
                  text := text
                  target_file := fres.map (·.1)
                  target_text := fres.map (·.2.1)
                  target_line_num := fres.map (·.2.2) })
  else .ok none

/-- The raw-line loop of `report.py`'s `process_files` over one file. -/
def rLineLoop (bd : BaseDir) (folderName fileName : String) :
    List (Nat × String) → Except Unit (List RResult)
  | [] => .ok []
  | (ln, line) :: rest =>
    match rlineResult bd folderName fileName ln line with
    | .error e => .error e
    | .ok none => rLineLoop bd folderName fileName rest
    | .ok (some r) =>
      match rLineLoop bd folderName fileName rest with
      | .error e => .error e
      | .ok rs => .ok (r :: rs)

/-- The file loop of `report.py`'s `process_files`. -/
def rFileLoop (bd : BaseDir) (folderName : String) :
    List RawFile → Except Unit (List RResult)
  | [] => .ok []
  | f :: fs =>
    match rLineLoop bd folderName f.name (pyEnum 1 (read_ass_file f)) with
    | .error e => .error e
    | .ok rs =>
      match rFileLoop bd folderName fs with
      | .error e => .error e
      | .ok rs' => .ok (rs ++ rs')

/-- The folder loop of `report.py`'s `process_files`. -/
def rFolderLoop (bd : BaseDir) : List (String × Folder) → Except Unit (List RResult)
  | [] => .ok []
  | d :: ds =>
    match rFileLoop bd d.1 (globAss d.2) with
    | .error e => .error e
    | .ok rs =>
      match rFolderLoop bd ds with
      | .error e => .error e
      | .ok rs' => .ok (rs ++ rs')

/-- Lexicographic (code-point) order on character lists, Python's string
comparison. -/
def charListLe : List Char → List Char → Bool
  | [], _ => true
  | _ :: _, [] => false
  | x :: xs, y :: ys => if x = y then charListLe xs ys else decide (x < y)

/-- Python `sorted` on strings. -/
def strLe (a b : String) : Bool := charListLe a.data b.data

/-- Stable insertion (keeps existing ≤-equal entries first). -/
def insSorted (x : String × Folder) :
    List (String × Folder) → List (String × Folder)
  | [] => [x]
  | y :: ys => if strLe y.1 x.1 then y :: insSorted x ys else x :: y :: ys

/-- Stable ascending sort by folder name, Python's
`sorted([f for f in base_dir.iterdir() ...])` for a fixed base. -/
def sortDirs (l : List (String × Folder)) : List (String × Folder) :=
  l.foldl (fun acc x => insSorted x acc) []

/-- `process_files(base_path)` of `report.py`: digit-named subfolders in
sorted order, then files, then enumerated raw lines. -/
def process_files (bd : BaseDir) : Except Unit (List RResult) :=
  rFolderLoop bd (sortDirs (bd.dirs.filter fun d => pyIsDigitStr d.1))

end Rep

namespace Rep

/-- One candidate of the free-text scan, in scan order: owning file name,
extracted dialogue text, and 1-based raw line number.  This is the flattened
view of the per-file line loop (dialogue-containing lines with truthy
extracted text); the equivalence with the nested loops is proved below. -/
def fileCands (f : RawFile) : List (String × String × Nat) :=
  (pyEnum 1 (read_ass_file f)).filterMap fun p =>
    if pyContains p.2 "Dialogue:" then
      match extract_text_from_line p.2 with
      | some ext => if ext = "" then none else some (f.name, ext, p.1)
      | none => none
    else none

/-- All candidates of a folder, in scan order. -/
def cands (fo : Folder) : List (String × String × Nat) :=
  (globAss fo).flatMap fileCands

/-- The containment score of a candidate's extracted text against the
normalized query `nq`, as the loop computes it: query-in-candidate gives
`|query| / |candidate|`, candidate-in-query gives `|candidate| / |query|`
(at most one of the two fires on a non-exact candidate), otherwise 0. -/
def contScore (nq cand : String) : ℚ :=
  let nt := normalize_text cand
  if pyContains nt nq then mkRat nq.length nt.length
  else if pyContains nq nt then mkRat nt.length nq.length
  else 0

/-- The candidate loop of `find_text_in_folder` over the flattened candidate
list: the single-list form of the nested file/line loops (equivalence proved
below). -/
def candGo (nq : String) :
    List (String × String × Nat) → St → Except Unit (Sum (String × String × Nat) St)
  | [], st => .ok (.inr st)
  | c :: cs, st =>
    match candStep nq c.1 c.2.2 c.2.1 st with
    | .error e => .error e
    | .ok (.inl done) => .ok (.inl done)
    | .ok (.inr st') => candGo nq cs st'

end Rep

/-- 1-based ordinal of raw line `n` among the dialogue-containing lines of
`lines` (used to compare a recorded raw line number with the event-line
ordinal the spec prescribes). -/
def dialogueOrdinal (lines : List String) (n : Nat) : Nat :=
  ((lines.take n).filter fun l => pyContains l "Dialogue:").length

/-! ## Concrete data for witnesses and counterexamples. -/

/-- A file readable under the first encoding. -/
def mkF (nm : String) (ls : List String) : RawFile :=
  { name := nm, decode := fun e => if e = .utf8sig then some ls else none }

/-- A file whose UTF-8-with-BOM attempt fails and whose plain UTF-8 attempt
succeeds. -/
def w8File : RawFile :=
  { name := "x.ass", decode := fun e => if e = .utf8 then some ["line"] else none }

/-- Witness base directory for the explicit-mode pipeline: folder `01` holds
a source file with one resolvable reference (exact match in folder `02`) and
one reference to the missing folder `07`. -/
def wBd : BaseDir :=
  { dirs := [
      ("01", { files := [mkF "src.ass"
        ["[Events]", "Format: Layer, Text",
         "Dialogue: 0,CR-2-[1],,Hi",
         "Dialogue: 0,CR-7-[1],,yo"]] }),
      ("02", { files := [mkF "t.ass"
        ["[Events]", "Format: Layer, Text",
         "Dialogue: 0,a,,Hi"]] })] }

/-- The first Match Result the witness run produces. -/
def wR1 : CR.CResult :=
  { folder := "01", file := "src.ass", line_num := 1
    target_folder := "02", target_line_numbers := [1], text := "Hi"
    target_file := some "t.ass", target_text := some "Hi"
    similarity := some 100, status := .exact }

/-- The second Match Result the witness run produces (missing folder). -/
def wR2 : CR.CResult :=
  { folder := "01", file := "src.ass", line_num := 2
    target_folder := "07", target_line_numbers := [1], text := "yo"
    target_file := none, target_text := none
    similarity := none, status := .notFound }

/-- Counterexample file for the explicit-mode locator: exactly one event
line, with text `hi`. -/
def c2File : RawFile :=
  mkF "a.ass" ["[Events]", "Format: x", "Dialogue: 0,a,,hi"]

/-- Counterexample folder for the explicit-mode locator. -/
def c2Fo : Folder := { files := [c2File] }

/-- Folder for the free-text witness: three dialogue lines with texts
`Hello world out there`, `Hello world`, `world`. -/
def c3Fo : Folder :=
  { files := [mkF "t.ass"
      ["Dialogue: a,,Hello world out there",
       "Dialogue: a,,Hello world",
       "Dialogue: a,,world"]] }

/-- Counterexample folder for the empty-query claim: one dialogue line whose
extracted text `\N` is truthy but normalizes to the empty string. -/
def c4Fo : Folder := { files := [mkF "t.ass" ["Dialogue: a,,\\N"]] }

/-- Counterexample base directory for the malformed-tag claim: one source
line carrying the tag `CR-3-[,]`, whose payload matches the tag pattern but
has empty comma-separated items. -/
def c5Bd : BaseDir :=
  { dirs := [("01", { files := [mkF "src.ass"
      ["[Events]", "Format: x", "Dialogue: 0,a,,boom CR-3-[,]"]] })] }

/-- Counterexample folder for the line-ordinal claim: one file whose
dialogue line sits at raw line 2 (after a non-event line), so its
dialogue-line ordinal is 1. -/
def c6Fo : Folder :=
  { files := [mkF "b.ass" ["junk line", "Dialogue: y,,replay 2 hi"]] }

/-- Counterexample base directory for the line-ordinal claim. -/
def c6Bd : BaseDir := { dirs := [("02", c6Fo)] }

/-- The single result the `c6Bd` run produces. -/
def c6R : Rep.RResult :=
  { folder := "02", file := "b.ass", line_num := 2
    pattern_type := "replay", pattern_number := "02", text := "replay 2 hi"
    target_file := some "b.ass", target_text := some "replay 2 hi"
    target_line_num := some 2 }

/-- Counterexample file for the event-reader claim: a dialogue-prefixed line
that contains the `[Events]` marker in its text. -/
def c9File : RawFile :=
  mkF "e.ass" ["x[Events]y", "Format: f", "Dialogue: a,,[Events]"]

/-! ## Support lemmas -/

theorem startsWithL_head (c : Char) (cs p1 p2 : List Char) (c1 c2 : Char)
    (h1 : startsWithL (c :: cs) (c1 :: p1) = true)
    (h2 : startsWithL (c :: cs) (c2 :: p2) = true) : c1 = c2 := by
  simp [startsWithL] at h1 h2
  rw [← h1.1, ← h2.1]

theorem dialogue_not_format (l : String)
    (h : pyStartsWith l "Dialogue:" = true ∨ pyStartsWith l "Comment:" = true) :
    pyStartsWith l "Format:" = false := by
  have hD : ("Dialogue:").data = 'D' :: "ialogue:".data := rfl
  have hC : ("Comment:").data = 'C' :: "omment:".data := rfl
  have hF : ("Format:").data = 'F' :: "ormat:".data := rfl
  unfold pyStartsWith at *
  rw [hF]
  cases hl : l.data with
  | nil => rfl
  | cons c cs =>
    rw [hl] at h
    by_contra hc
    have hc' : startsWithL (c :: cs) ('F' :: "ormat:".data) = true := by
      revert hc; cases startsWithL (c :: cs) ('F' :: "ormat:".data) <;> simp
    rcases h with h | h
    · rw [hD] at h
      exact absurd (startsWithL_head c cs _ _ 'D' 'F' h hc') (by decide)
    · rw [hC] at h
      exact absurd (startsWithL_head c cs _ _ 'C' 'F' h hc') (by decide)

/-! ### Event-reader lemmas -/

theorem eventsSt_inEv_mono (lines : List String) :
    ∀ fF, (CR.eventsSt true fF lines).2.1 = true := by
  induction lines with
  | nil => intro fF; rfl
  | cons l ls ih =>
    intro fF
    simp only [CR.eventsSt]
    split
    · exact ih fF
    · simp only [if_true]
      split
      · exact ih true
      · split
        · simp only
          exact ih fF
        · exact ih fF

theorem eventsSt_fmt_mono (lines : List String) :
    ∀ iE, (CR.eventsSt iE true lines).2.2 = true := by
  induction lines with
  | nil => intro iE; rfl
  | cons l ls ih =>
    intro iE
    simp only [CR.eventsSt]
    split
    · exact ih true
    · split
      · split
        · exact ih iE
        · split
          · simp only
            exact ih iE
          · exact ih iE
      · exact ih iE

theorem eventsSt_tt_mem (l : String) (ws : List String)
    (h1 : pyContains l "[Events]" = false)
    (h2 : pyStartsWith l "Dialogue:" = true ∨ pyStartsWith l "Comment:" = true) :
    ∀ zs : List String, l ∈ (CR.eventsSt true true (zs ++ l :: ws)).1 := by
  intro zs
  induction zs with
  | nil =>
    simp only [List.nil_append, CR.eventsSt, h1, dialogue_not_format l h2]
    have h2' : (pyStartsWith l "Dialogue:" || pyStartsWith l "Comment:") = true := by
      rcases h2 with h | h <;> simp [h]
    simp [h2']
  | cons z zs ih =>
    by_cases hz1 : pyContains z "[Events]" = true
    · simpa [List.cons_append, CR.eventsSt, hz1] using ih
    · by_cases hz2 : pyStartsWith z "Format:" = true
      · simpa [List.cons_append, CR.eventsSt, hz1, hz2] using ih
      · by_cases hz3 : (pyStartsWith z "Dialogue:" || pyStartsWith z "Comment:") = true
        · simp only [List.cons_append, CR.eventsSt, hz1, hz2, hz3]
          simp only [Bool.false_eq_true, if_false, if_true, Bool.true_and]
          exact List.mem_cons_of_mem z ih
        · simp only [List.cons_append, CR.eventsSt, hz1, hz2, hz3]
          simpa [Bool.false_eq_true] using ih

theorem eventsSt_reach_fmt (l b : String) (ws zs : List String)
    (h1 : pyContains l "[Events]" = false)
    (h2 : pyStartsWith l "Dialogue:" = true ∨ pyStartsWith l "Comment:" = true)
    (hb1 : pyStartsWith b "Format:" = true) (hb2 : pyContains b "[Events]" = false) :
    ∀ ys : List String, ∀ fF, l ∈ (CR.eventsSt true fF (ys ++ b :: zs ++ l :: ws)).1 := by
  intro ys
  induction ys with
  | nil =>
    intro fF
    simp only [List.nil_append, CR.eventsSt, hb1, hb2]
    simp only [Bool.false_eq_true, if_false, if_true]
    exact eventsSt_tt_mem l ws h1 h2 zs
  | cons y ys ih =>
    intro fF
    by_cases hy1 : pyContains y "[Events]" = true
    · simpa [List.cons_append, CR.eventsSt, hy1] using ih fF
    · by_cases hy2 : pyStartsWith y "Format:" = true
      · simpa [List.cons_append, CR.eventsSt, hy1, hy2] using ih true
      · by_cases hy3 : (fF && (pyStartsWith y "Dialogue:" || pyStartsWith y "Comment:")) = true
        · simp only [List.cons_append, CR.eventsSt, hy1, hy2, hy3]
          simp only [Bool.false_eq_true, if_false, if_true]
          exact List.mem_cons_of_mem y (ih fF)
        · simp only [List.cons_append, CR.eventsSt, hy1, hy2, hy3]
          simpa [Bool.false_eq_true] using ih fF

theorem eventsSt_reach_events (l a b : String) (ws zs ys : List String)
    (h1 : pyContains l "[Events]" = false)
    (h2 : pyStartsWith l "Dialogue:" = true ∨ pyStartsWith l "Comment:" = true)
    (hb1 : pyStartsWith b "Format:" = true) (hb2 : pyContains b "[Events]" = false)
    (ha : pyContains a "[Events]" = true) :
    ∀ xs : List String, ∀ iE fF,
      l ∈ (CR.eventsSt iE fF (xs ++ a :: ys ++ b :: zs ++ l :: ws)).1 := by
  intro xs
  induction xs with
  | nil =>
    intro iE fF
    simp only [List.nil_append, CR.eventsSt, ha, if_true]
    exact eventsSt_reach_fmt l b ws zs h1 h2 hb1 hb2 ys fF
  | cons x xs ih =>
    intro iE fF
    simp only [List.cons_append, CR.eventsSt]
    split
    · exact ih true fF
    · split
      · split
        · exact ih iE true
        · split
          · exact List.mem_cons_of_mem x (ih iE fF)
          · exact ih iE fF
      · exact ih iE fF

/-! ## Claim theorems -/

/-- **C8** (confirmed).  The subtitle reader attempts the four encodings in
the fixed order UTF-8-with-BOM, UTF-8, latin-1, cp1252, returns the line
sequence of the first attempt that succeeds, and returns the empty sequence
when every attempt fails; being a total function into `List String`, no
exception reaches the caller. -/
theorem c8_encoding_fallback (f : RawFile) :
    ((∀ e, f.decode e = none) → read_ass_file f = []) ∧
    (∀ ls, f.decode .utf8sig = some ls → read_ass_file f = ls) ∧
    (∀ ls, f.decode .utf8sig = none → f.decode .utf8 = some ls →
      read_ass_file f = ls) ∧
    (∀ ls, f.decode .utf8sig = none → f.decode .utf8 = none →
      f.decode .latin1 = some ls → read_ass_file f = ls) ∧
    (∀ ls, f.decode .utf8sig = none → f.decode .utf8 = none →
      f.decode .latin1 = none → f.decode .cp1252 = some ls →
      read_ass_file f = ls) := by
  refine ⟨?_, ?_, ?_, ?_, ?_⟩ <;> intro ls <;> intros <;>
    simp_all [read_ass_file, readTry, encOrder]

/-- Witness for C8: a file whose BOM attempt fails and whose plain UTF-8
attempt succeeds is read via the second encoding. -/
theorem c8_encoding_fallback_witness : read_ass_file w8File = ["line"] :=
  (c8_encoding_fallback w8File).2.2.1 ["line"] (by decide) (by decide)

/-- **C9 counterexample**.  A line that starts with the dialogue keyword but
contains the `[Events]` marker is consumed by the section-header check and
dropped, so not every later dialogue-prefixed line is included: with lines
`x[Events]y`, `Format: f`, `Dialogue: a,,[Events]`, the reader returns no
event lines at all. -/
theorem c9_event_reader_cex :
    pyStartsWith "Dialogue: a,,[Events]" "Dialogue:" = true ∧
    CR.get_event_lines c9File = [] := by
  constructor
  · decide
  · decide

/-- **C9** (corrected).  The `in_events` and `found_format` flags are indeed
never reset once set; and every later dialogue/comment-prefixed line that
does not itself contain the `[Events]` marker is collected, provided the
header line is followed by a format line not containing the marker — even
with arbitrary other lines (e.g. other section headers) in between. -/
theorem c9_event_reader_amended :
    (∀ lines fF, (CR.eventsSt true fF lines).2.1 = true) ∧
    (∀ lines iE, (CR.eventsSt iE true lines).2.2 = true) ∧
    (∀ (f : RawFile) (xs ys zs ws : List String) (a b l : String),
      read_ass_file f = xs ++ a :: ys ++ b :: zs ++ l :: ws →
      pyContains a "[Events]" = true →
      pyStartsWith b "Format:" = true → pyContains b "[Events]" = false →
      (pyStartsWith l "Dialogue:" = true ∨ pyStartsWith l "Comment:" = true) →
      pyContains l "[Events]" = false →
      l ∈ CR.get_event_lines f) := by
  refine ⟨fun lines fF => eventsSt_inEv_mono lines fF,
          fun lines iE => eventsSt_fmt_mono lines iE, ?_⟩
  intro f xs ys zs ws a b l hread ha hb1 hb2 h2 h1
  unfold CR.get_event_lines
  rw [hread]
  exact eventsSt_reach_events l a b ws zs ys h1 h2 hb1 hb2 ha xs false false

/-- Witness for C9: the dialogue line of the witness source file is
collected even though a stray `[Styles]` header sits between the format line
and it. -/
theorem c9_event_reader_amended_witness :
    "Dialogue: 0,a,,Hi" ∈ CR.get_event_lines
      (mkF "w.ass" ["[Events]", "Format: x", "[Styles]", "Dialogue: 0,a,,Hi"]) :=
  c9_event_reader_amended.2.2
    (mkF "w.ass" ["[Events]", "Format: x", "[Styles]", "Dialogue: 0,a,,Hi"])
    [] [] ["[Styles]"] [] "[Events]" "Format: x" "Dialogue: 0,a,,Hi"
    (by decide) (by decide) (by decide) (by decide) (Or.inl (by decide)) (by decide)

/-- **C5 counterexample**.  A tag whose bracket payload matches the pattern
but splits into empty items — `CR-3-[,]` — is not skipped: the `int`
conversion raises, and the error escapes `process_files`, so the run
crashes instead of producing no Match Result. -/
theorem c5_malformed_tag_cex : CR.process_files c5Bd [1] 95 = .error () := by
  decide

/-- **C5** (corrected).  A line whose reference tag fails the pattern match —
an empty bracket list, or any bracket character outside digits, commas and
whitespace — is silently skipped and contributes no Match Result; but a
payload that matches the pattern while containing an empty comma-separated
item raises an uncaught error (see the counterexample). -/
theorem c5_malformed_tag_amended :
    (∀ (bd : BaseDir) (θ : ℚ) (fn fln line : String) (ln : Nat)
        (rest : List (Nat × String)),
      CR.crSearch line.data = none →
      CR.lineLoop bd θ fn fln ((ln, line) :: rest) = CR.lineLoop bd θ fn fln rest) ∧
    CR.find_cross_reference_pattern "x CR-03-[] y" = .ok none ∧
    CR.find_cross_reference_pattern "x CR-03-[5,a] y" = .ok none := by
  refine ⟨?_, by decide, by decide⟩
  intro bd θ fn fln line ln rest h
  simp [CR.lineLoop, CR.lineResult, CR.find_cross_reference_pattern, h]

/-- Witness for C5: a line with no tag is skipped by the line loop. -/
theorem c5_malformed_tag_amended_witness :
    CR.lineLoop wBd 95 "01" "f.ass" [(1, "plain line")] =
      CR.lineLoop wBd 95 "01" "f.ass" [] :=
  c5_malformed_tag_amended.1 wBd 95 "01" "f.ass" "plain line" 1 [] (by decide)

/-! ### SequenceMatcher degenerate-input lemmas -/

theorem matchesTotal_nil_left (b : List Char) : DL.matchesTotal [] b = 0 := rfl

theorem b2j_nil (c : Char) : DL.b2j [] c = [] := rfl

theorem flmInner_nil (blo bhi i : Nat) (j2len nj : Nat → Nat)
    (best : Nat × Nat × Nat) :
    DL.flmInner blo bhi i j2len [] nj best = (nj, best) := rfl

theorem flmOuter_nil_b (a : List Char) (blo bhi : Nat) :
    ∀ cnt i j2len best, DL.flmOuter a (DL.b2j []) blo bhi cnt i j2len best = best := by
  intro cnt
  induction cnt with
  | zero => intros; rfl
  | succ n ih =>
    intro i j2len best
    simp only [DL.flmOuter, b2j_nil, flmInner_nil]
    exact ih (i + 1) _ best

theorem extHi_bhi_zero (a b : List Char) (ahi : Nat) :
    ∀ fuel, DL.extHi a b ahi 0 fuel (0, 0, 0) = (0, 0, 0) := by
  intro fuel
  cases fuel with
  | zero => rfl
  | succ n => simp [DL.extHi]

theorem findLongestMatch_nil_right (a : List Char) :
    DL.findLongestMatch a [] (DL.b2j []) 0 a.length 0 0 = (0, 0, 0) := by
  unfold DL.findLongestMatch
  rw [flmOuter_nil_b]
  show DL.extHi a [] a.length 0 a.length
    (DL.extLo a [] 0 0 (0, 0, 0).1 (0, 0, 0)) = (0, 0, 0)
  have h1 : DL.extLo a [] 0 0 (0, 0, 0).1 (0, 0, 0) = (0, 0, 0) := rfl
  rw [h1]
  exact extHi_bhi_zero a [] a.length a.length

theorem matchesTotal_nil_right (a : List Char) : DL.matchesTotal a [] = 0 := by
  show DL.mtGo a [] (DL.b2j []) (a.length + List.length [] + 1) 0 a.length 0
    (List.length []) = 0
  simp only [List.length_nil]
  simp only [DL.mtGo, findLongestMatch_nil_right]
  simp

/-- **C7 counterexample**.  The similarity score is not symmetric: the pair
`ab` / `bacb` scores 200/3 one way and 100/3 the other (the underlying
SequenceMatcher block decomposition differs between argument orders). -/
theorem c7_similarity_asymmetry_cex :
    calculate_similarity "ab" "bacb" ≠ calculate_similarity "bacb" "ab" := by
  decide

/-- **C7** (corrected).  Symmetry fails in general (see the counterexample);
it does hold whenever the two texts normalize to the same string, or either
text normalizes to the empty string (where both orders score 0, or 100 when
both are empty). -/
theorem c7_similarity_symmetry_amended (t1 t2 : String)
    (h : normalize_text t1 = normalize_text t2 ∨
         normalize_text t1 = "" ∨ normalize_text t2 = "") :
    calculate_similarity t1 t2 = calculate_similarity t2 t1 := by
  rcases h with h | h | h
  · unfold calculate_similarity
    rw [h]
  · unfold calculate_similarity
    rw [h]
    show DL.ratio100 [] (normalize_text t2).data
      = DL.ratio100 (normalize_text t2).data []
    unfold DL.ratio100
    simp only [List.length_nil, matchesTotal_nil_left, matchesTotal_nil_right,
      Nat.zero_add, Nat.add_zero, Nat.cast_zero, mul_zero, zero_div]
  · unfold calculate_similarity
    rw [h]
    show DL.ratio100 (normalize_text t1).data []
      = DL.ratio100 [] (normalize_text t1).data
    unfold DL.ratio100
    simp only [List.length_nil, matchesTotal_nil_left, matchesTotal_nil_right,
      Nat.zero_add, Nat.add_zero, Nat.cast_zero, mul_zero, zero_div]

/-- Witness for C7: two texts that differ only in whitespace and line-break
markers normalize identically, so their scores agree in both orders. -/
theorem c7_similarity_symmetry_amended_witness :
    calculate_similarity "a\\Nb" " a  b " = calculate_similarity " a  b " "a\\Nb" :=
  c7_similarity_symmetry_amended "a\\Nb" " a  b " (Or.inl (by decide))

/-! ### Explicit-mode locator lemmas -/

theorem joinSpace_ne_empty (l : List String) (hne : l ≠ [])
    (hall : ∀ x ∈ l, x ≠ "") : joinSpace l ≠ "" := by
  match l with
  | [] => exact absurd rfl hne
  | [x] => simpa [joinSpace] using hall x (by simp)
  | x :: y :: rest =>
    intro hcon
    have h2 : (joinSpace (x :: y :: rest)).length
        = x.length + 1 + (joinSpace (y :: rest)).length := by
      show (x ++ " " ++ joinSpace (y :: rest)).length = _
      have hsp : (" " : String).length = 1 := rfl
      simp [String.length_append, hsp]
    rw [hcon] at h2
    simp at h2
    omega

theorem ordText_ne_empty (ev : List String) (n : Nat) (t : String)
    (h : CR.ordText ev n = some t) : t ≠ "" := by
  unfold CR.ordText at h
  split at h
  · split at h
    · split at h
      · exact (Option.some.inj h) ▸ (by assumption)
      · cases h
    · cases h
  · cases h

theorem gtf_some (f : RawFile) (nums : List Nat) (t : String)
    (h : CR.get_text_from_lines f nums = some t) :
    nums.filterMap (CR.ordText (CR.get_event_lines f)) ≠ [] ∧
    t = joinSpace (nums.filterMap (CR.ordText (CR.get_event_lines f))) ∧
    t ≠ "" := by
  unfold CR.get_text_from_lines at h
  have h' : (if List.filterMap (CR.ordText (CR.get_event_lines f)) nums ≠ [] then
      some (joinSpace (List.filterMap (CR.ordText (CR.get_event_lines f)) nums))
    else none) = some t := h
  clear h
  rename' h' => h
  split at h
  · have ht := Option.some.inj h
    refine ⟨by assumption, ht.symm, ?_⟩
    rw [← ht]
    refine joinSpace_ne_empty _ (by assumption) ?_
    intro x hx
    obtain ⟨n, _, hn⟩ := List.mem_filterMap.mp hx
    exact ordText_ne_empty _ n x hn
  · cases h

theorem gtf_none (f : RawFile) (nums : List Nat)
    (h : CR.get_text_from_lines f nums = none) :
    nums.filterMap (CR.ordText (CR.get_event_lines f)) = [] := by
  unfold CR.get_text_from_lines at h
  have h' : (if List.filterMap (CR.ordText (CR.get_event_lines f)) nums ≠ [] then
      some (joinSpace (List.filterMap (CR.ordText (CR.get_event_lines f)) nums))
    else none) = none := h
  clear h
  rename' h' => h
  split at h
  · cases h
  · simpa using (by assumption : ¬ nums.filterMap (CR.ordText (CR.get_event_lines f)) ≠ [])

theorem ftifGo_some (nums : List Nat) :
    ∀ (fs : List RawFile) (f t : String) (l : List Nat),
      CR.ftifGo nums fs = some (f, t, l) →
      l = nums ∧ t ≠ "" ∧ ∃ fs₁ file fs₂, fs = fs₁ ++ file :: fs₂ ∧
        f = file.name ∧
        (∀ g ∈ fs₁, CR.get_text_from_lines g nums = none) ∧
        CR.get_text_from_lines file nums = some t := by
  intro fs
  induction fs with
  | nil => intro f t l h; cases h
  | cons g gs ih =>
    intro f t l h
    unfold CR.ftifGo at h
    cases hg : CR.get_text_from_lines g nums with
    | some s =>
      rw [hg] at h
      have hs : s ≠ "" := (gtf_some g nums s hg).2.2
      have h' : (if s ≠ "" then some (g.name, s, nums) else CR.ftifGo nums gs)
          = some (f, t, l) := h
      rw [if_pos hs] at h'
      have h'' := Option.some.inj h'
      have hf : g.name = f := congrArg Prod.fst h''
      have ht : s = t := congrArg (fun p => p.2.1) h''
      have hl : nums = l := congrArg (fun p => p.2.2) h''
      subst hf ht hl
      exact ⟨rfl, hs, [], g, gs, rfl, rfl, by simp, hg⟩
    | none =>
      rw [hg] at h
      obtain ⟨hl, ht, fs₁, file, fs₂, hsplit, hf, hpre, hfile⟩ := ih f t l h
      exact ⟨hl, ht, g :: fs₁, file, fs₂, by rw [hsplit]; rfl, hf,
        by intro x hx; rcases List.mem_cons.mp hx with h | h
           · exact h ▸ hg
           · exact hpre x h,
        hfile⟩

theorem ftifGo_none (nums : List Nat) :
    ∀ fs : List RawFile, (∀ g ∈ fs, CR.get_text_from_lines g nums = none) →
      CR.ftifGo nums fs = none := by
  intro fs
  induction fs with
  | nil => intro _; rfl
  | cons g gs ih =>
    intro hall
    unfold CR.ftifGo
    rw [hall g (by simp)]
    exact ih fun x hx => hall x (List.mem_cons_of_mem g hx)

theorem globAss_name_ne (fo : Folder) (f : RawFile) (h : f ∈ globAss fo) :
    f.name ≠ "" := by
  unfold globAss at h
  rw [List.mem_filter] at h
  intro hc
  have h2 := h.2
  rw [hc] at h2
  exact absurd h2 (by decide)

/-- **C2 counterexample**.  With a single-event-line file and requested
ordinals `[1, 2]`, ordinal 2 yields no text, yet the locator still reports a
match — the winning file needs only *some* requested ordinal to yield text,
not all of them. -/
theorem c2_locator_all_ordinals_cex :
    CR.find_text_in_folder (some c2Fo) [1, 2] = some ("a.ass", "hi", [1, 2]) ∧
    CR.ordText (CR.get_event_lines c2File) 2 = none := ⟨by decide, by decide⟩

/-- **C2** (corrected).  The winning file is the first file (in listing
order) yielding non-empty extracted text for *at least one* requested
ordinal; the combined target text is the space-joined concatenation of the
texts at the ordinals that did yield text; no match is reported when the
folder is absent or no file yields text for any requested ordinal. -/
theorem c2_locator_first_file_any_ordinal (fo : Folder) (nums : List Nat) :
    CR.find_text_in_folder none nums = none ∧
    (∀ f t l, CR.find_text_in_folder (some fo) nums = some (f, t, l) →
      l = nums ∧ ∃ fs₁ file fs₂, globAss fo = fs₁ ++ file :: fs₂ ∧
        f = file.name ∧
        (∀ g ∈ fs₁, ∀ n ∈ nums, CR.ordText (CR.get_event_lines g) n = none) ∧
        (∃ n ∈ nums, CR.ordText (CR.get_event_lines file) n ≠ none) ∧
        t = joinSpace (nums.filterMap (CR.ordText (CR.get_event_lines file)))) ∧
    ((∀ g ∈ globAss fo, ∀ n ∈ nums, CR.ordText (CR.get_event_lines g) n = none) →
      CR.find_text_in_folder (some fo) nums = none) := by
  refine ⟨rfl, ?_, ?_⟩
  · intro f t l h
    obtain ⟨hl, ht, fs₁, file, fs₂, hsplit, hf, hpre, hfile⟩ :=
      ftifGo_some nums (globAss fo) f t l h
    obtain ⟨hne, htj, _⟩ := gtf_some file nums t hfile
    refine ⟨hl, fs₁, file, fs₂, hsplit, hf, ?_, ?_, htj⟩
    · intro g hg n hn
      have := gtf_none g nums (hpre g hg)
      exact List.filterMap_eq_nil_iff.mp this n hn
    · by_contra hc
      push_neg at hc
      exact hne (List.filterMap_eq_nil_iff.mpr hc)
  · intro hall
    show CR.ftifGo nums (globAss fo) = none
    refine ftifGo_none nums _ fun g hg => ?_
    unfold CR.get_text_from_lines
    rw [if_neg]
    simp only [ne_eq, not_not]
    exact List.filterMap_eq_nil_iff.mpr (hall g hg)

/-- Witness for C2: on the single-file folder with requested ordinal `[1]`,
the locator returns the first (only) file with the joined text. -/
theorem c2_locator_first_file_any_ordinal_witness :
    [1] = [1] ∧ ∃ fs₁ file fs₂, globAss c2Fo = fs₁ ++ file :: fs₂ ∧
      "a.ass" = file.name ∧
      (∀ g ∈ fs₁, ∀ n ∈ [1], CR.ordText (CR.get_event_lines g) n = none) ∧
      (∃ n ∈ [1], CR.ordText (CR.get_event_lines file) n ≠ none) ∧
      "hi" = joinSpace (List.filterMap (CR.ordText (CR.get_event_lines file)) [1]) :=
  (c2_locator_first_file_any_ordinal c2Fo [1]).2.1 "a.ass" "hi" [1] (by decide)

/-! ### Explicit-mode classification lemmas -/

theorem targetFields_none (θ : ℚ) (text : String) :
    CR.targetFields θ text none = (none, none, none, .notFound) := rfl

theorem targetFields_some (θ : ℚ) (text f t : String) (l : List Nat)
    (hf : f ≠ "") (ht : t ≠ "") :
    CR.targetFields θ text (some (f, t, l)) =
      (some f, some t, some (calculate_similarity text t),
       CR.get_match_status text t θ) := by
  unfold CR.targetFields
  rw [if_pos]
  · rfl
  · constructor <;> simp [optTruthy, hf, ht]

theorem gms_cases (t1 t2 : String) (θ : ℚ) (h1 : t1 ≠ "") (h2 : t2 ≠ "") :
    CR.get_match_status t1 t2 θ ≠ .notFound ∧
    (CR.get_match_status t1 t2 θ = .exact ↔
      normalize_text t1 = normalize_text t2) ∧
    (normalize_text t1 ≠ normalize_text t2 →
      ((CR.get_match_status t1 t2 θ = .similar ↔
          θ ≤ calculate_similarity t1 t2) ∧
       (CR.get_match_status t1 t2 θ = .different ↔
          calculate_similarity t1 t2 < θ))) := by
  unfold CR.get_match_status
  rw [if_neg (by simp [h1, h2])]
  by_cases he : normalize_text t1 = normalize_text t2
  · rw [if_pos he]
    exact ⟨by simp, by simp [he], fun hne => absurd he hne⟩
  · rw [if_neg he]
    by_cases hs : θ ≤ calculate_similarity t1 t2
    · rw [if_pos hs]
      refine ⟨by simp, by simp [he], fun _ => ⟨iff_of_true rfl hs, ?_⟩⟩
      exact iff_of_false (by simp) (not_lt.mpr hs)
    · rw [if_neg hs]
      refine ⟨by simp, by simp [he], fun _ => ⟨iff_of_false (by simp) hs, ?_⟩⟩
      exact iff_of_true rfl (not_le.mp hs)

theorem lineResult_shape (bd : BaseDir) (θ : ℚ) (fn fln line : String)
    (ln : Nat) (r : CR.CResult)
    (h : CR.lineResult bd θ fn fln ln line = .ok (some r)) :
    r.folder = fn ∧ r.file = fln ∧ r.line_num = ln ∧
    extract_text_from_line line = some r.text ∧ r.text ≠ "" ∧
    ((r.target_file = none ∧ r.target_text = none ∧ r.similarity = none ∧
        r.status = .notFound) ∨
     (∃ f t, r.target_file = some f ∧ r.target_text = some t ∧
        f ≠ "" ∧ t ≠ "" ∧
        r.similarity = some (calculate_similarity r.text t) ∧
        r.status = CR.get_match_status r.text t θ)) := by
  unfold CR.lineResult at h
  cases hp : CR.find_cross_reference_pattern line with
  | error e => rw [hp] at h; cases h
  | ok o =>
    cases o with
    | none => rw [hp] at h; cases h
    | some pr =>
      obtain ⟨tfn, tlns⟩ := pr
      simp only [hp] at h
      by_cases hg : tfn = "" ∨ tlns = []
      · rw [if_pos hg] at h; cases h
      · rw [if_neg hg] at h
        cases hex : extract_text_from_line line with
        | none =>
          simp only [hex] at h
          exact Option.noConfusion (Except.ok.inj h)
        | some text =>
          simp only [hex] at h
          by_cases htx : text = ""
          · rw [if_pos htx] at h; cases h
          · rw [if_neg htx] at h
            have hr := (Option.some.inj (Except.ok.inj h)).symm
            subst hr
            refine ⟨rfl, rfl, rfl, rfl, htx, ?_⟩
            cases hf : CR.find_text_in_folder (dirLookup bd tfn) tlns with
            | none =>
              left
              simp [targetFields_none]
            | some tr =>
              obtain ⟨f, t, l⟩ := tr
              right
              cases hd : dirLookup bd tfn with
              | none =>
                rw [hd] at hf
                simp [CR.find_text_in_folder] at hf
              | some fo =>
                rw [hd] at hf
                have hf' : CR.ftifGo tlns (globAss fo) = some (f, t, l) := hf
                obtain ⟨-, ht, fs₁, file, fs₂, hsplit, hfn, -, -⟩ :=
                  ftifGo_some tlns (globAss fo) f t l hf'
                have hmem : file ∈ globAss fo := by
                  rw [hsplit]
                  exact List.mem_append_right _ (List.mem_cons_self _ _)
                have hfne : f ≠ "" := hfn ▸ globAss_name_ne fo file hmem
                refine ⟨f, t, ?_, ?_, hfne, ht, ?_, ?_⟩ <;>
                  simp [targetFields_some θ text f t l hfne ht]

theorem lineLoop_mem (bd : BaseDir) (θ : ℚ) (fn fln : String) :
    ∀ (l : List (Nat × String)) (rs : List CR.CResult),
      CR.lineLoop bd θ fn fln l = .ok rs → ∀ r ∈ rs,
      ∃ p ∈ l, CR.lineResult bd θ fn fln p.1 p.2 = .ok (some r) := by
  intro l
  induction l with
  | nil =>
    intro rs h r hr
    cases h
    simp at hr
  | cons p ps ih =>
    obtain ⟨ln, line⟩ := p
    intro rs h r hr
    unfold CR.lineLoop at h
    cases hlr : CR.lineResult bd θ fn fln ln line with
    | error e => rw [hlr] at h; cases h
    | ok o =>
      cases o with
      | none =>
        simp only [hlr] at h
        obtain ⟨q, hq, hq2⟩ := ih rs h r hr
        exact ⟨q, List.mem_cons_of_mem _ hq, hq2⟩
      | some r0 =>
        simp only [hlr] at h
        cases hrec : CR.lineLoop bd θ fn fln ps with
        | error e => rw [hrec] at h; cases h
        | ok rs' =>
          simp only [hrec] at h
          cases Except.ok.inj h
          rcases List.mem_cons.mp hr with h1 | h1
          · refine ⟨(ln, line), List.mem_cons_self _ _, ?_⟩
            rw [h1]
            exact hlr
          · obtain ⟨q, hq, hq2⟩ := ih rs' hrec r h1
            exact ⟨q, List.mem_cons_of_mem _ hq, hq2⟩

theorem fileLoop_mem (bd : BaseDir) (θ : ℚ) (fn : String) :
    ∀ (fs : List RawFile) (rs : List CR.CResult),
      CR.fileLoop bd θ fn fs = .ok rs → ∀ r ∈ rs,
      ∃ f ∈ fs, ∃ rs',
        CR.lineLoop bd θ fn f.name (pyEnum 1 (CR.get_event_lines f)) = .ok rs' ∧
        r ∈ rs' := by
  intro fs
  induction fs with
  | nil =>
    intro rs h r hr
    cases h
    simp at hr
  | cons f fs ih =>
    intro rs h r hr
    unfold CR.fileLoop at h
    cases hl : CR.lineLoop bd θ fn f.name (pyEnum 1 (CR.get_event_lines f)) with
    | error e => rw [hl] at h; cases h
    | ok rs1 =>
      simp only [hl] at h
      cases hrec : CR.fileLoop bd θ fn fs with
      | error e => rw [hrec] at h; cases h
      | ok rs2 =>
        simp only [hrec] at h
        cases Except.ok.inj h
        rcases List.mem_append.mp hr with h1 | h1
        · exact ⟨f, List.mem_cons_self _ _, rs1, hl, h1⟩
        · obtain ⟨g, hg, rs', hg2, hg3⟩ := ih rs2 hrec r h1
          exact ⟨g, List.mem_cons_of_mem _ hg, rs', hg2, hg3⟩

theorem folderLoop_mem (bd : BaseDir) (θ : ℚ) :
    ∀ (names : List String) (rs : List CR.CResult),
      CR.folderLoop bd θ names = .ok rs → ∀ r ∈ rs,
      ∃ name ∈ names, ∃ fo, dirLookup bd name = some fo ∧
        ∃ rs', CR.fileLoop bd θ name (globAss fo) = .ok rs' ∧ r ∈ rs' := by
  intro names
  induction names with
  | nil =>
    intro rs h r hr
    cases h
    simp at hr
  | cons name names ih =>
    intro rs h r hr
    unfold CR.folderLoop at h
    cases hd : dirLookup bd name with
    | none =>
      simp only [hd] at h
      obtain ⟨nm, hnm, rest⟩ := ih rs h r hr
      exact ⟨nm, List.mem_cons_of_mem _ hnm, rest⟩
    | some fo =>
      simp only [hd] at h
      cases hfl : CR.fileLoop bd θ name (globAss fo) with
      | error e => rw [hfl] at h; cases h
      | ok rs1 =>
        simp only [hfl] at h
        cases hrec : CR.folderLoop bd θ names with
        | error e => rw [hrec] at h; cases h
        | ok rs2 =>
          simp only [hrec] at h
          cases Except.ok.inj h
          rcases List.mem_append.mp hr with h1 | h1
          · exact ⟨name, List.mem_cons_self _ _, fo, hd, rs1, hfl, h1⟩
          · obtain ⟨nm, hnm, rest⟩ := ih rs2 hrec r h1
            exact ⟨nm, List.mem_cons_of_mem _ hnm, rest⟩

/-- **C1** (confirmed).  For every Match Result an explicit-mode run
produces: the target file, target text and similarity are set if and only if
a target was located (the three are `none` together or `some` together);
the status is NOT FOUND exactly when the target is absent; when a target
text is present the status is EXACT exactly when the normalized texts agree,
and otherwise SIMILAR exactly when the similarity reaches the threshold and
DIFFERENT exactly when it falls below — the decision order of
`get_match_status`. -/
theorem c1_match_result_invariant (bd : BaseDir) (range : List Nat) (θ : ℚ)
    (rs : List CR.CResult) (h : CR.process_files bd range θ = .ok rs)
    (r : CR.CResult) (hr : r ∈ rs) :
    (r.target_file = none ↔ r.target_text = none) ∧
    (r.similarity = none ↔ r.target_file = none) ∧
    (r.status = .notFound ↔ r.target_file = none) ∧
    (r.status = .exact ↔ ∃ t, r.target_text = some t ∧
        normalize_text r.text = normalize_text t) ∧
    (∀ t, r.target_text = some t → normalize_text r.text ≠ normalize_text t →
      ((r.status = .similar ↔ θ ≤ calculate_similarity r.text t) ∧
       (r.status = .different ↔ calculate_similarity r.text t < θ))) ∧
    (∀ t, r.target_text = some t →
      r.similarity = some (calculate_similarity r.text t)) := by
  obtain ⟨name, -, fo, -, rs1, hfl, hr1⟩ := folderLoop_mem bd θ _ rs h r hr
  obtain ⟨f, -, rs2, hll, hr2⟩ := fileLoop_mem bd θ name _ rs1 hfl r hr1
  obtain ⟨p, -, hlr⟩ := lineLoop_mem bd θ name f.name _ rs2 hll r hr2
  obtain ⟨-, -, -, -, htext, hshape⟩ :=
    lineResult_shape bd θ name f.name p.2 p.1 r hlr
  rcases hshape with ⟨h1, h2, h3, h4⟩ | ⟨f', t', h1, h2, hf', ht', h3, h4⟩
  · exact ⟨by simp [h1, h2], by simp [h3, h1], by simp [h4, h1],
      by simp [h4, h2], by simp [h2], by simp [h2]⟩
  · have hg := gms_cases r.text t' θ htext ht'
    refine ⟨by simp [h1, h2], by simp [h3, h1], by simp [h4, h1, hg.1], ?_, ?_, ?_⟩
    · rw [h4, h2, hg.2.1]
      constructor
      · intro hx; exact ⟨t', rfl, hx⟩
      · rintro ⟨t, ht, hn⟩
        cases Option.some.inj ht
        exact hn
    · intro t htt hne
      rw [h2] at htt
      cases Option.some.inj htt
      rw [h4]
      exact hg.2.2 hne
    · intro t htt
      rw [h2] at htt
      cases Option.some.inj htt
      exact h3

/-- Witness for C1: the witness run yields one located-and-exact result and
one missing-folder result, and both satisfy the invariant. -/
theorem c1_match_result_invariant_witness :
    CR.process_files wBd [1] 95 = .ok [wR1, wR2] ∧
    (wR1.status = .exact ↔ ∃ t, wR1.target_text = some t ∧
        normalize_text wR1.text = normalize_text t) ∧
    (wR2.status = .notFound ↔ wR2.target_file = none) :=
  ⟨by decide,
   (c1_match_result_invariant wBd [1] 95 [wR1, wR2] (by decide) wR1
      (by simp)).2.2.2.1,
   (c1_match_result_invariant wBd [1] 95 [wR1, wR2] (by decide) wR2
      (by simp)).2.2.1⟩

/-! ### String-containment lemmas for the free-text locator -/

theorem str_len_zero (s : String) (h : s.length = 0) : s = "" := by
  cases s with
  | mk data =>
    cases data with
    | nil => rfl
    | cons c cs => simp [String.length] at h

theorem str_data_eq (a b : String) (h : a.data = b.data) : a = b := by
  cases a
  cases b
  exact congrArg String.mk h

theorem containsL_nil_elim (p : List Char) (h : containsL [] p = true) :
    p = [] := by
  unfold containsL at h
  simpa using h

theorem startsWithL_length : ∀ (l p : List Char),
    startsWithL l p = true → p.length ≤ l.length := by
  intro l
  induction l with
  | nil =>
    intro p h
    cases p with
    | nil => simp
    | cons c cs => simp [startsWithL] at h
  | cons c cs ih =>
    intro p h
    cases p with
    | nil => simp
    | cons d ds =>
      simp only [startsWithL, Bool.and_eq_true] at h
      simpa [Nat.succ_le_succ_iff] using ih ds h.2

theorem startsWithL_eq_of_length : ∀ (l p : List Char),
    startsWithL l p = true → l.length ≤ p.length → p = l := by
  intro l
  induction l with
  | nil =>
    intro p h _
    cases p with
    | nil => rfl
    | cons d ds => simp [startsWithL] at h
  | cons c cs ih =>
    intro p h hl
    cases p with
    | nil => simp at hl
    | cons d ds =>
      simp only [startsWithL, Bool.and_eq_true] at h
      have hd : c = d := by
        have := h.1
        simpa using this
      rw [← hd, ih ds h.2 (by simpa using hl)]

theorem containsL_length : ∀ (l p : List Char),
    containsL l p = true → p.length ≤ l.length := by
  intro l
  induction l with
  | nil =>
    intro p h
    rw [containsL_nil_elim p h]
  | cons c cs ih =>
    intro p h
    unfold containsL at h
    cases hsw : startsWithL (c :: cs) p with
    | true => exact startsWithL_length _ p hsw
    | false =>
      rw [hsw] at h
      simp only [Bool.false_or] at h
      exact Nat.le_succ_of_le (ih p h)

theorem containsL_antisymm (a b : List Char) (h1 : containsL a b = true)
    (h2 : containsL b a = true) : a = b := by
  have la := containsL_length a b h1
  have lb := containsL_length b a h2
  cases a with
  | nil => exact (containsL_nil_elim b h1).symm
  | cons c cs =>
    unfold containsL at h1
    cases hsw : startsWithL (c :: cs) b with
    | true => exact (startsWithL_eq_of_length _ b hsw (by omega)).symm
    | false =>
      rw [hsw] at h1
      simp only [Bool.false_or] at h1
      have := containsL_length cs b h1
      simp at la lb
      omega

theorem contScore_nonneg (nq cand : String) : 0 ≤ Rep.contScore nq cand := by
  show 0 ≤ (if pyContains (normalize_text cand) nq then
      mkRat nq.length (normalize_text cand).length
    else if pyContains nq (normalize_text cand) then
      mkRat (normalize_text cand).length nq.length
    else 0)
  split
  · rw [Rat.mkRat_eq_div]
    exact div_nonneg (by positivity) (Nat.cast_nonneg _)
  · split
    · rw [Rat.mkRat_eq_div]
      exact div_nonneg (by positivity) (Nat.cast_nonneg _)
    · exact le_refl 0

theorem candStep_exact (nq fname : String) (ln : Nat) (ext : String)
    (st : Rep.St) (he : normalize_text ext = nq) :
    Rep.candStep nq fname ln ext st = .ok (.inl (fname, ext, ln)) := by
  unfold Rep.candStep
  rw [if_pos he]

theorem candStep_noexact (nq fname : String) (ln : Nat) (ext : String)
    (st : Rep.St) (he : normalize_text ext ≠ nq) (hst : 0 ≤ st.2) :
    Rep.candStep nq fname ln ext st =
      .ok (.inr (if st.2 < Rep.contScore nq ext then
        (some (fname, ext, ln), Rep.contScore nq ext) else st)) := by
  by_cases h1 : pyContains (normalize_text ext) nq = true
  · by_cases h2 : pyContains nq (normalize_text ext) = true
    · exact absurd (str_data_eq _ _ (containsL_antisymm _ _ h1 h2)) he
    · have hlen : (normalize_text ext).length ≠ 0 := by
        intro h0
        have hnte := str_len_zero _ h0
        rw [hnte] at h1
        have hq := str_data_eq nq "" (containsL_nil_elim _ h1)
        exact he (hnte.trans hq.symm)
      simp [Rep.candStep, Rep.contScore, Rep.pyDivQ, he, h1, h2, hlen]
  · by_cases h2 : pyContains nq (normalize_text ext) = true
    · have hlen : nq.length ≠ 0 := by
        intro h0
        have hnq := str_len_zero _ h0
        rw [hnq] at h2
        have hx := str_data_eq (normalize_text ext) "" (containsL_nil_elim _ h2)
        exact he (hx.trans hnq.symm)
      simp [Rep.candStep, Rep.contScore, Rep.pyDivQ, he, h1, h2, hlen]
    · simp [Rep.candStep, Rep.contScore, he, h1, h2, not_lt.mpr hst]

theorem candGo_ok (nq : String) :
    ∀ (cs : List (String × String × Nat)) (st : Rep.St), 0 ≤ st.2 →
      (∃ d, Rep.candGo nq cs st = .ok (.inl d)) ∨
      (∃ st', Rep.candGo nq cs st = .ok (.inr st') ∧ 0 ≤ st'.2) := by
  intro cs
  induction cs with
  | nil => intro st hst; exact Or.inr ⟨st, rfl, hst⟩
  | cons c cs ih =>
    intro st hst
    by_cases he : normalize_text c.2.1 = nq
    · left
      refine ⟨(c.1, c.2.1, c.2.2), ?_⟩
      unfold Rep.candGo
      rw [candStep_exact nq c.1 c.2.2 c.2.1 st he]
    · have hns := candStep_noexact nq c.1 c.2.2 c.2.1 st he hst
      have hnn : 0 ≤ (if st.2 < Rep.contScore nq c.2.1 then
          ((some (c.1, c.2.1, c.2.2) : Option (String × String × Nat)),
            Rep.contScore nq c.2.1) else st).2 := by
        split
        · exact contScore_nonneg nq c.2.1
        · exact hst
      have := ih _ hnn
      rcases this with ⟨d, hd⟩ | ⟨st', h1, h2⟩
      · left
        refine ⟨d, ?_⟩
        unfold Rep.candGo
        rw [hns]
        exact hd
      · right
        refine ⟨st', ?_, h2⟩
        unfold Rep.candGo
        rw [hns]
        exact h1

theorem repLineLoop_eq_candGo (nq fname : String) :
    ∀ (l : List (Nat × String)) (st : Rep.St),
      Rep.repLineLoop nq fname l st =
        Rep.candGo nq (l.filterMap fun p =>
          if pyContains p.2 "Dialogue:" then
            match extract_text_from_line p.2 with
            | some ext => if ext = "" then none else some (fname, ext, p.1)
            | none => none
          else none) st := by
  intro l
  induction l with
  | nil => intro st; rfl
  | cons p ps ih =>
    intro st
    obtain ⟨ln, line⟩ := p
    by_cases hd : pyContains line "Dialogue:" = true
    · cases hex : extract_text_from_line line with
      | none => simp [Rep.repLineLoop, hd, hex, ih]
      | some ext =>
        by_cases hee : ext = ""
        · simp [Rep.repLineLoop, hd, hex, hee, ih]
        · simp only [Rep.repLineLoop, hd, hex, hee, List.filterMap_cons, if_true,
            ite_true, ite_false, if_false]
          cases hcs : Rep.candStep nq fname ln ext st with
          | error e => simp [Rep.candGo, hcs, hd, hee]
          | ok v =>
            cases v with
            | inl d => simp [Rep.candGo, hcs, hd, hee]
            | inr st' => simp [Rep.candGo, hcs, hd, hee, ih]
    · simp [Rep.repLineLoop, hd, ih]

theorem repLineLoop_eq_fileCands (nq : String) (f : RawFile) (st : Rep.St) :
    Rep.repLineLoop nq f.name (pyEnum 1 (read_ass_file f)) st =
      Rep.candGo nq (Rep.fileCands f) st :=
  repLineLoop_eq_candGo nq f.name (pyEnum 1 (read_ass_file f)) st

theorem candGo_append (nq : String) :
    ∀ (cs₁ cs₂ : List (String × String × Nat)) (st : Rep.St),
      Rep.candGo nq (cs₁ ++ cs₂) st =
        match Rep.candGo nq cs₁ st with
        | .error e => .error e
        | .ok (.inl d) => .ok (.inl d)
        | .ok (.inr st') => Rep.candGo nq cs₂ st' := by
  intro cs₁
  induction cs₁ with
  | nil => intro cs₂ st; rfl
  | cons c cs ih =>
    intro cs₂ st
    show Rep.candGo nq (c :: (cs ++ cs₂)) st = _
    cases hcs : Rep.candStep nq c.1 c.2.2 c.2.1 st with
    | error e => simp [Rep.candGo, hcs]
    | ok v =>
      cases v with
      | inl d => simp [Rep.candGo, hcs]
      | inr st' => simp [Rep.candGo, hcs, ih]

theorem repFileLoop_eq (nq : String) :
    ∀ (fs : List RawFile) (st : Rep.St),
      Rep.repFileLoop nq fs st =
        match Rep.candGo nq (fs.flatMap Rep.fileCands) st with
        | .error e => .error e
        | .ok (.inl d) => .ok (some d)
        | .ok (.inr st') => .ok st'.1 := by
  intro fs
  induction fs with
  | nil => intro st; rfl
  | cons f fs ih =>
    intro st
    show (match Rep.repLineLoop nq f.name (pyEnum 1 (read_ass_file f)) st with
      | .error e => (.error e : Except Unit (Option (String × String × Nat)))
      | .ok (.inl done) => .ok (some done)
      | .ok (.inr st') => Rep.repFileLoop nq fs st') = _
    rw [repLineLoop_eq_fileCands]
    rw [List.flatMap_cons, candGo_append]
    cases hcg : Rep.candGo nq (Rep.fileCands f) st with
    | error e => rfl
    | ok v =>
      cases v with
      | inl d => rfl
      | inr st' => exact ih st'

theorem find_text_eq (fo : Folder) (q : String) :
    Rep.find_text_in_folder (some fo) q =
      match Rep.candGo (normalize_text q) (Rep.cands fo) (none, 0) with
      | .error e => .error e
      | .ok (.inl d) => .ok (some d)
      | .ok (.inr st') => .ok st'.1 :=
  repFileLoop_eq (normalize_text q) (globAss fo) (none, 0)

/-- **C10** (confirmed).  The free-text locator never raises a
division-by-zero error: every containment-score division has a nonzero
divisor (an empty normalized side would force the exact-match branch to have
returned first), so the function always returns a value. -/
theorem c10_no_division_error (folder : Option Folder) (q : String) :
    ∃ v, Rep.find_text_in_folder folder q = .ok v := by
  cases folder with
  | none => exact ⟨none, rfl⟩
  | some fo =>
    rw [find_text_eq]
    rcases candGo_ok (normalize_text q) (Rep.cands fo) (none, 0) (le_refl 0) with
      ⟨d, hd⟩ | ⟨st', h1, -⟩
    · rw [hd]
      exact ⟨some d, rfl⟩
    · rw [h1]
      exact ⟨st'.1, rfl⟩

theorem containsL_empty : ∀ l : List Char, containsL l [] = true := by
  intro l
  cases l with
  | nil => rfl
  | cons c cs => simp [containsL, startsWithL]

theorem candGo_exact (nq : String) :
    ∀ (cs₁ : List (String × String × Nat)) (c : String × String × Nat)
      (cs₂ : List (String × String × Nat)) (st : Rep.St), 0 ≤ st.2 →
      (∀ d ∈ cs₁, normalize_text d.2.1 ≠ nq) →
      normalize_text c.2.1 = nq →
      Rep.candGo nq (cs₁ ++ c :: cs₂) st = .ok (.inl c) := by
  intro cs₁
  induction cs₁ with
  | nil =>
    intro c cs₂ st hst _ he
    show Rep.candGo nq (c :: cs₂) st = _
    unfold Rep.candGo
    rw [candStep_exact nq c.1 c.2.2 c.2.1 st he]
  | cons d ds ih =>
    intro c cs₂ st hst hne he
    have hd := hne d (List.mem_cons_self _ _)
    have hns := candStep_noexact nq d.1 d.2.2 d.2.1 st hd hst
    show Rep.candGo nq (d :: (ds ++ c :: cs₂)) st = _
    unfold Rep.candGo
    rw [hns]
    have hnn : 0 ≤ (if st.2 < Rep.contScore nq d.2.1 then
        ((some (d.1, d.2.1, d.2.2) : Option (String × String × Nat)),
          Rep.contScore nq d.2.1) else st).2 := by
      split
      · exact contScore_nonneg nq d.2.1
      · exact hst
    exact ih c cs₂ _ hnn (fun x hx => hne x (List.mem_cons_of_mem _ hx)) he

theorem candGo_no_update (nq : String) :
    ∀ (cs : List (String × String × Nat)) (st : Rep.St),
      (∀ d ∈ cs, normalize_text d.2.1 ≠ nq) →
      (∀ d ∈ cs, Rep.contScore nq d.2.1 ≤ st.2) → 0 ≤ st.2 →
      Rep.candGo nq cs st = .ok (.inr st) := by
  intro cs
  induction cs with
  | nil => intro st _ _ _; rfl
  | cons c cs ih =>
    intro st hne hsc hst
    have he := hne c (List.mem_cons_self _ _)
    have hns := candStep_noexact nq c.1 c.2.2 c.2.1 st he hst
    rw [if_neg (not_lt.mpr (hsc c (List.mem_cons_self _ _)))] at hns
    unfold Rep.candGo
    rw [hns]
    exact ih st (fun d hd => hne d (List.mem_cons_of_mem _ hd))
      (fun d hd => hsc d (List.mem_cons_of_mem _ hd)) hst

theorem candGo_bounded (nq : String) (B : ℚ) :
    ∀ (cs : List (String × String × Nat)) (st : Rep.St),
      (∀ d ∈ cs, normalize_text d.2.1 ≠ nq) →
      (∀ d ∈ cs, Rep.contScore nq d.2.1 < B) →
      0 ≤ st.2 → st.2 < B →
      ∃ st', Rep.candGo nq cs st = .ok (.inr st') ∧ 0 ≤ st'.2 ∧ st'.2 < B := by
  intro cs
  induction cs with
  | nil => intro st _ _ h0 hB; exact ⟨st, rfl, h0, hB⟩
  | cons c cs ih =>
    intro st hne hlt h0 hB
    have he := hne c (List.mem_cons_self _ _)
    have hns := candStep_noexact nq c.1 c.2.2 c.2.1 st he h0
    have h0' : 0 ≤ (if st.2 < Rep.contScore nq c.2.1 then
        ((some (c.1, c.2.1, c.2.2) : Option (String × String × Nat)),
          Rep.contScore nq c.2.1) else st).2 := by
      split
      · exact contScore_nonneg nq c.2.1
      · exact h0
    have hB' : (if st.2 < Rep.contScore nq c.2.1 then
        ((some (c.1, c.2.1, c.2.2) : Option (String × String × Nat)),
          Rep.contScore nq c.2.1) else st).2 < B := by
      split
      · exact hlt c (List.mem_cons_self _ _)
      · exact hB
    obtain ⟨st', hgo, hr⟩ := ih _ (fun d hd => hne d (List.mem_cons_of_mem _ hd))
      (fun d hd => hlt d (List.mem_cons_of_mem _ hd)) h0' hB'
    refine ⟨st', ?_, hr⟩
    unfold Rep.candGo
    rw [hns]
    exact hgo

theorem candGo_first_max (nq : String) (cs₁ : List (String × String × Nat))
    (c : String × String × Nat) (cs₂ : List (String × String × Nat))
    (hne : ∀ d ∈ cs₁ ++ c :: cs₂, normalize_text d.2.1 ≠ nq)
    (hpos : 0 < Rep.contScore nq c.2.1)
    (hmax₁ : ∀ d ∈ cs₁, Rep.contScore nq d.2.1 < Rep.contScore nq c.2.1)
    (hmax₂ : ∀ d ∈ cs₂, Rep.contScore nq d.2.1 ≤ Rep.contScore nq c.2.1) :
    Rep.candGo nq (cs₁ ++ c :: cs₂) (none, 0) =
      .ok (.inr (some c, Rep.contScore nq c.2.1)) := by
  obtain ⟨st₁, hgo₁, hst₁0, hst₁B⟩ := candGo_bounded nq (Rep.contScore nq c.2.1)
    cs₁ (none, 0) (fun d hd => hne d (List.mem_append_left _ hd)) hmax₁
    (le_refl 0) hpos
  rw [candGo_append, hgo₁]
  show Rep.candGo nq (c :: cs₂) st₁ = _
  have hec := hne c (List.mem_append_right _ (List.mem_cons_self _ _))
  have hns := candStep_noexact nq c.1 c.2.2 c.2.1 st₁ hec hst₁0
  rw [if_pos hst₁B] at hns
  unfold Rep.candGo
  rw [hns]
  exact candGo_no_update nq cs₂ (some c, Rep.contScore nq c.2.1)
    (fun d hd => hne d (List.mem_append_right _ (List.mem_cons_of_mem _ hd)))
    (fun d hd => hmax₂ d hd) (le_of_lt hpos)

/-- **C3** (confirmed).  The free-text locator scans the dialogue-line
candidates of all files in order; the first candidate whose normalized text
equals the normalized query is returned immediately; with no exact match,
the result is the first candidate achieving the maximal containment score
(later candidates replace the best only on a strictly greater score), and no
match is reported when no candidate has a positive score. -/
theorem c3_free_text_locator_characterization (fo : Folder) (q : String) :
    (∀ cs₁ c cs₂, Rep.cands fo = cs₁ ++ c :: cs₂ →
      (∀ d ∈ cs₁, normalize_text d.2.1 ≠ normalize_text q) →
      normalize_text c.2.1 = normalize_text q →
      Rep.find_text_in_folder (some fo) q = .ok (some c)) ∧
    ((∀ d ∈ Rep.cands fo, normalize_text d.2.1 ≠ normalize_text q) →
      ((∀ d ∈ Rep.cands fo, Rep.contScore (normalize_text q) d.2.1 ≤ 0) →
        Rep.find_text_in_folder (some fo) q = .ok none) ∧
      (∀ cs₁ c cs₂, Rep.cands fo = cs₁ ++ c :: cs₂ →
        0 < Rep.contScore (normalize_text q) c.2.1 →
        (∀ d ∈ cs₁, Rep.contScore (normalize_text q) d.2.1 <
          Rep.contScore (normalize_text q) c.2.1) →
        (∀ d ∈ cs₂, Rep.contScore (normalize_text q) d.2.1 ≤
          Rep.contScore (normalize_text q) c.2.1) →
        Rep.find_text_in_folder (some fo) q = .ok (some c))) := by
  refine ⟨?_, fun hnoex => ⟨?_, ?_⟩⟩
  · intro cs₁ c cs₂ hsplit hpre he
    rw [find_text_eq, hsplit,
      candGo_exact (normalize_text q) cs₁ c cs₂ (none, 0) (le_refl 0) hpre he]
  · intro hall
    rw [find_text_eq,
      candGo_no_update (normalize_text q) (Rep.cands fo) (none, 0) hnoex
        (by simpa using hall) (le_refl 0)]
  · intro cs₁ c cs₂ hsplit hpos hm₁ hm₂
    rw [find_text_eq, hsplit,
      candGo_first_max (normalize_text q) cs₁ c cs₂ (hsplit ▸ hnoex) hpos hm₁ hm₂]

/-- Witness for C3: on the three-candidate witness folder and query
`Hello world today`, no candidate matches exactly and the second candidate
(`Hello world`, contained in the query with the largest ratio) is returned. -/
theorem c3_free_text_locator_characterization_witness :
    Rep.find_text_in_folder (some c3Fo) "Hello world today" =
      .ok (some ("t.ass", "Hello world", 2)) :=
  ((c3_free_text_locator_characterization c3Fo "Hello world today").2
    (by decide)).2
    [("t.ass", "Hello world out there", 1)] ("t.ass", "Hello world", 2)
    [("t.ass", "world", 3)] (by decide) (by decide) (by decide) (by decide)

theorem contScore_empty_query (cand : String) : Rep.contScore "" cand = 0 := by
  have h1 : pyContains (normalize_text cand) "" = true := containsL_empty _
  have h2 : ("" : String).length = 0 := rfl
  unfold Rep.contScore
  rw [if_pos h1, h2]
  show mkRat ((0 : Nat) : Int) (normalize_text cand).length = 0
  rw [Rat.mkRat_eq_div]
  simp

theorem candGo_empty_query :
    ∀ (cs : List (String × String × Nat)) (st : Rep.St), st.2 = 0 →
      Rep.candGo "" cs st =
        .ok (match cs.find? (fun c => normalize_text c.2.1 == "") with
             | some c => .inl c
             | none => .inr st) := by
  intro cs
  induction cs with
  | nil => intro st _; rfl
  | cons c cs ih =>
    intro st hst
    by_cases he : normalize_text c.2.1 = ""
    · unfold Rep.candGo
      rw [candStep_exact "" c.1 c.2.2 c.2.1 st he]
      rw [List.find?_cons_of_pos _ (by simp [he])]
    · have hns := candStep_noexact "" c.1 c.2.2 c.2.1 st he (le_of_eq hst.symm)
      rw [contScore_empty_query c.2.1, hst] at hns
      rw [if_neg (lt_irrefl 0)] at hns
      unfold Rep.candGo
      rw [hns, List.find?_cons_of_neg _ (by simp [he])]
      exact ih st hst

/-- **C4 counterexample**.  A query that is non-empty but normalizes to the
empty string (`\N`) does produce a match when some dialogue line's extracted
text also normalizes to empty: the exact-match branch fires on the equal
empty normalizations. -/
theorem c4_empty_query_cex :
    normalize_text "\\N" = "" ∧
    Rep.find_text_in_folder (some c4Fo) "\\N" =
      .ok (some ("t.ass", "\\N", 1)) := ⟨by decide, by decide⟩

/-- **C4** (corrected).  A query empty after normalization never produces a
containment match (every containment score is 0); it produces a match
exactly when some scanned candidate's extracted text also normalizes to the
empty string, in which case the first such candidate is returned as an exact
match. -/
theorem c4_empty_query_amended (fo : Folder) (q : String)
    (hq : normalize_text q = "") :
    Rep.find_text_in_folder (some fo) q =
      .ok ((Rep.cands fo).find? fun c => normalize_text c.2.1 == "") := by
  rw [find_text_eq, hq, candGo_empty_query (Rep.cands fo) (none, 0) rfl]
  cases (Rep.cands fo).find? fun c => normalize_text c.2.1 == "" with
  | none => rfl
  | some c => rfl

/-- Witness for C4: on the witness folder the `\N` query returns the first
(and only) empty-normalizing candidate. -/
theorem c4_empty_query_amended_witness :
    Rep.find_text_in_folder (some c4Fo) "\\N" =
      .ok ((Rep.cands c4Fo).find? fun c => normalize_text c.2.1 == "") :=
  c4_empty_query_amended c4Fo "\\N" (by decide)

/-! ### Provenance lemmas for the recorded line numbers -/

theorem mem_pyEnum : ∀ (l : List α) (s : Nat) (p : Nat × α), p ∈ pyEnum s l →
    s ≤ p.1 ∧ l.get? (p.1 - s) = some p.2 := by
  intro l
  induction l with
  | nil => intro s p h; simp [pyEnum] at h
  | cons x xs ih =>
    intro s p h
    rcases List.mem_cons.mp h with h1 | h1
    · subst h1
      exact ⟨le_refl s, by simp⟩
    · obtain ⟨hle, hg⟩ := ih (s + 1) p h1
      refine ⟨by omega, ?_⟩
      have hx : p.1 - s = (p.1 - (s + 1)) + 1 := by omega
      rw [hx]
      simpa using hg

theorem candGo_mem (nq : String) :
    ∀ (cs : List (String × String × Nat)) (st : Rep.St), 0 ≤ st.2 →
      (∀ d, Rep.candGo nq cs st = .ok (.inl d) → d ∈ cs) ∧
      (∀ st' b, Rep.candGo nq cs st = .ok (.inr st') → st'.1 = some b →
        st.1 = some b ∨ b ∈ cs) := by
  intro cs
  induction cs with
  | nil =>
    intro st hst
    constructor
    · intro d h
      exact Sum.noConfusion (Except.ok.inj h)
    · intro st' b h hb
      cases Except.ok.inj h
      exact Or.inl hb
  | cons c cs ih =>
    intro st hst
    by_cases he : normalize_text c.2.1 = nq
    · have hx := candStep_exact nq c.1 c.2.2 c.2.1 st he
      constructor
      · intro d h
        unfold Rep.candGo at h
        rw [hx] at h
        have := Except.ok.inj h
        have hd : c = d := by
          have := Sum.inl.inj this
          exact this
        exact hd ▸ List.mem_cons_self _ _
      · intro st' b h hb
        unfold Rep.candGo at h
        rw [hx] at h
        cases Except.ok.inj h
    · have hns := candStep_noexact nq c.1 c.2.2 c.2.1 st he hst
      have hst' : 0 ≤ (if st.2 < Rep.contScore nq c.2.1 then
          ((some (c.1, c.2.1, c.2.2) : Option (String × String × Nat)),
            Rep.contScore nq c.2.1) else st).2 := by
        split
        · exact contScore_nonneg nq c.2.1
        · exact hst
      obtain ⟨ihl, ihr⟩ := ih _ hst'
      constructor
      · intro d h
        unfold Rep.candGo at h
        rw [hns] at h
        exact List.mem_cons_of_mem _ (ihl d h)
      · intro st' b h hb
        unfold Rep.candGo at h
        rw [hns] at h
        rcases ihr st' b h hb with h2 | h2
        · by_cases hcond : st.2 < Rep.contScore nq c.2.1
          · rw [if_pos hcond] at h2
            have hb2 := Option.some.inj h2
            right
            rw [← hb2]
            exact List.mem_cons_self _ _
          · rw [if_neg hcond] at h2
            exact Or.inl h2
        · exact Or.inr (List.mem_cons_of_mem _ h2)

theorem cands_mem (fo : Folder) (c : String × String × Nat)
    (h : c ∈ Rep.cands fo) :
    ∃ file ∈ globAss fo, file.name = c.1 ∧ ∃ line,
      (read_ass_file file).get? (c.2.2 - 1) = some line ∧ 1 ≤ c.2.2 ∧
      pyContains line "Dialogue:" = true ∧
      extract_text_from_line line = some c.2.1 := by
  unfold Rep.cands at h
  obtain ⟨file, hfile, hc⟩ := List.mem_flatMap.mp h
  unfold Rep.fileCands at hc
  obtain ⟨p, hp, hpc⟩ := List.mem_filterMap.mp hc
  by_cases hd : pyContains p.2 "Dialogue:" = true
  · rw [if_pos hd] at hpc
    cases hex : extract_text_from_line p.2 with
    | none => rw [hex] at hpc; cases hpc
    | some ext =>
      simp only [hex] at hpc
      by_cases hee : ext = ""
      · rw [if_pos hee] at hpc; cases hpc
      · rw [if_neg hee] at hpc
        have hc' := (Option.some.inj hpc).symm
        subst hc'
        obtain ⟨hs, hg⟩ := mem_pyEnum _ 1 p hp
        exact ⟨file, hfile, rfl, p.2, hg, hs, hd, hex⟩
  · rw [if_neg hd] at hpc; cases hpc

theorem repFind_some_mem (fo : Folder) (q f t : String) (n : Nat)
    (h : Rep.find_text_in_folder (some fo) q = .ok (some (f, t, n))) :
    (f, t, n) ∈ Rep.cands fo := by
  rw [find_text_eq] at h
  cases hcg : Rep.candGo (normalize_text q) (Rep.cands fo) (none, 0) with
  | error e => rw [hcg] at h; cases h
  | ok v =>
    rw [hcg] at h
    cases v with
    | inl d =>
      have hd := (candGo_mem (normalize_text q) (Rep.cands fo) (none, 0)
        (le_refl 0)).1 d hcg
      have : some d = some (f, t, n) := Except.ok.inj h
      rw [← Option.some.inj this]
      exact hd
    | inr st' =>
      have hst : st'.1 = some (f, t, n) := Except.ok.inj h
      rcases (candGo_mem (normalize_text q) (Rep.cands fo) (none, 0)
          (le_refl 0)).2 st' (f, t, n) hcg hst with h2 | h2
      · cases h2
      · exact h2

theorem rlineResult_fields (bd : BaseDir) (fn fln : String) (ln : Nat)
    (line : String) (r : Rep.RResult)
    (h : Rep.rlineResult bd fn fln ln line = .ok (some r)) :
    r.folder = fn ∧ r.file = fln ∧ r.line_num = ln ∧
    pyContains line "Dialogue:" = true ∧
    extract_text_from_line line = some r.text := by
  unfold Rep.rlineResult at h
  by_cases hd : pyContains line "Dialogue:" = true
  · rw [if_pos hd] at h
    cases hp : Rep.find_pattern_in_line line with
    | none => rw [hp] at h; cases h
    | some pr =>
      obtain ⟨pt, num⟩ := pr
      simp only [hp] at h
      by_cases hg : pt = "" ∨ num = ""
      · rw [if_pos hg] at h; cases h
      · rw [if_neg hg] at h
        cases hex : extract_text_from_line line with
        | none =>
          simp only [hex] at h
          exact Option.noConfusion (Except.ok.inj h)
        | some text =>
          simp only [hex] at h
          by_cases htx : text = ""
          · rw [if_pos htx] at h; cases h
          · rw [if_neg htx] at h
            cases hf : Rep.find_text_in_folder
                (dirLookup bd (pyZfill num 2)) text with
            | error e => rw [hf] at h; cases h
            | ok fres =>
              simp only [hf] at h
              have hr := (Option.some.inj (Except.ok.inj h)).symm
              subst hr
              exact ⟨rfl, rfl, rfl, hd, rfl⟩
  · rw [if_neg hd] at h; cases h

theorem rLineLoop_mem (bd : BaseDir) (fn fln : String) :
    ∀ (l : List (Nat × String)) (rs : List Rep.RResult),
      Rep.rLineLoop bd fn fln l = .ok rs → ∀ r ∈ rs,
      ∃ p ∈ l, Rep.rlineResult bd fn fln p.1 p.2 = .ok (some r) := by
  intro l
  induction l with
  | nil =>
    intro rs h r hr
    cases h
    simp at hr
  | cons p ps ih =>
    obtain ⟨ln, line⟩ := p
    intro rs h r hr
    unfold Rep.rLineLoop at h
    cases hlr : Rep.rlineResult bd fn fln ln line with
    | error e => rw [hlr] at h; cases h
    | ok o =>
      cases o with
      | none =>
        simp only [hlr] at h
        obtain ⟨q, hq, hq2⟩ := ih rs h r hr
        exact ⟨q, List.mem_cons_of_mem _ hq, hq2⟩
      | some r0 =>
        simp only [hlr] at h
        cases hrec : Rep.rLineLoop bd fn fln ps with
        | error e => rw [hrec] at h; cases h
        | ok rs' =>
          simp only [hrec] at h
          cases Except.ok.inj h
          rcases List.mem_cons.mp hr with h1 | h1
          · refine ⟨(ln, line), List.mem_cons_self _ _, ?_⟩
            rw [h1]
            exact hlr
          · obtain ⟨q, hq, hq2⟩ := ih rs' hrec r h1
            exact ⟨q, List.mem_cons_of_mem _ hq, hq2⟩

theorem rFileLoop_mem (bd : BaseDir) (fn : String) :
    ∀ (fs : List RawFile) (rs : List Rep.RResult),
      Rep.rFileLoop bd fn fs = .ok rs → ∀ r ∈ rs,
      ∃ f ∈ fs, ∃ rs',
        Rep.rLineLoop bd fn f.name (pyEnum 1 (read_ass_file f)) = .ok rs' ∧
        r ∈ rs' := by
  intro fs
  induction fs with
  | nil =>
    intro rs h r hr
    cases h
    simp at hr
  | cons f fs ih =>
    intro rs h r hr
    unfold Rep.rFileLoop at h
    cases hl : Rep.rLineLoop bd fn f.name (pyEnum 1 (read_ass_file f)) with
    | error e => rw [hl] at h; cases h
    | ok rs1 =>
      simp only [hl] at h
      cases hrec : Rep.rFileLoop bd fn fs with
      | error e => rw [hrec] at h; cases h
      | ok rs2 =>
        simp only [hrec] at h
        cases Except.ok.inj h
        rcases List.mem_append.mp hr with h1 | h1
        · exact ⟨f, List.mem_cons_self _ _, rs1, hl, h1⟩
        · obtain ⟨g, hg, rs', hg2, hg3⟩ := ih rs2 hrec r h1
          exact ⟨g, List.mem_cons_of_mem _ hg, rs', hg2, hg3⟩

theorem rFolderLoop_mem (bd : BaseDir) :
    ∀ (ds : List (String × Folder)) (rs : List Rep.RResult),
      Rep.rFolderLoop bd ds = .ok rs → ∀ r ∈ rs,
      ∃ d ∈ ds, ∃ rs', Rep.rFileLoop bd d.1 (globAss d.2) = .ok rs' ∧
        r ∈ rs' := by
  intro ds
  induction ds with
  | nil =>
    intro rs h r hr
    cases h
    simp at hr
  | cons d ds ih =>
    intro rs h r hr
    unfold Rep.rFolderLoop at h
    cases hfl : Rep.rFileLoop bd d.1 (globAss d.2) with
    | error e => rw [hfl] at h; cases h
    | ok rs1 =>
      simp only [hfl] at h
      cases hrec : Rep.rFolderLoop bd ds with
      | error e => rw [hrec] at h; cases h
      | ok rs2 =>
        simp only [hrec] at h
        cases Except.ok.inj h
        rcases List.mem_append.mp hr with h1 | h1
        · exact ⟨d, List.mem_cons_self _ _, rs1, hfl, h1⟩
        · obtain ⟨d', hd', rest⟩ := ih rs2 hrec r h1
          exact ⟨d', List.mem_cons_of_mem _ hd', rest⟩

theorem mem_insSorted (x y : String × Folder) :
    ∀ l : List (String × Folder), y ∈ Rep.insSorted x l → y = x ∨ y ∈ l := by
  intro l
  induction l with
  | nil =>
    intro h
    rcases List.mem_cons.mp h with h1 | h1
    · exact Or.inl h1
    · simp at h1
  | cons z zs ih =>
    intro h
    unfold Rep.insSorted at h
    split at h
    · rcases List.mem_cons.mp h with h1 | h1
      · exact Or.inr (h1 ▸ List.mem_cons_self _ _)
      · rcases ih h1 with h2 | h2
        · exact Or.inl h2
        · exact Or.inr (List.mem_cons_of_mem _ h2)
    · rcases List.mem_cons.mp h with h1 | h1
      · exact Or.inl h1
      · exact Or.inr h1

theorem mem_sortDirs_aux :
    ∀ (l acc : List (String × Folder)) (y : String × Folder),
      y ∈ List.foldl (fun a x => Rep.insSorted x a) acc l →
      y ∈ acc ∨ y ∈ l := by
  intro l
  induction l with
  | nil => intro acc y h; exact Or.inl h
  | cons x xs ih =>
    intro acc y h
    rcases ih (Rep.insSorted x acc) y h with h1 | h1
    · rcases mem_insSorted x y acc h1 with h2 | h2
      · exact Or.inr (h2 ▸ List.mem_cons_self _ _)
      · exact Or.inl h2
    · exact Or.inr (List.mem_cons_of_mem _ h1)

theorem mem_sortDirs (l : List (String × Folder)) (y : String × Folder)
    (h : y ∈ Rep.sortDirs l) : y ∈ l := by
  rcases mem_sortDirs_aux l [] y h with h1 | h1
  · simp at h1
  · exact h1

/-- **C6 counterexample**.  In `report.py` the recorded line number is the
raw 1-based line number, not the ordinal among event lines: the witness
file's dialogue line is its first (and only) dialogue line, yet the Match
Result records line 2 (its raw position after a non-event line), for the
source as well as the located target. -/
theorem c6_line_ordinal_cex :
    Rep.process_files c6Bd = .ok [c6R] ∧ c6R.line_num = 2 ∧
    c6R.target_line_num = some 2 ∧
    dialogueOrdinal ["junk line", "Dialogue: y,,replay 2 hi"] 2 = 1 ∧
    (2 : Nat) ≠ 1 :=
  ⟨by decide, by decide, by decide, by decide, by decide⟩

/-- **C6** (corrected).  In `cross-reference.py` the recorded source line
number is the 1-based ordinal among the file's event lines (it indexes
`get_event_lines`); in `report.py` both the recorded source line number and
the free-text locator's target line number are 1-based raw line numbers
(they index the file's raw line list, at a dialogue-containing line). -/
theorem c6_line_numbers_amended :
    (∀ (bd : BaseDir) (range : List Nat) (θ : ℚ) (rs : List CR.CResult),
      CR.process_files bd range θ = .ok rs → ∀ r ∈ rs,
      ∃ fo, dirLookup bd r.folder = some fo ∧
        ∃ f ∈ globAss fo, f.name = r.file ∧
        ∃ line, (CR.get_event_lines f).get? (r.line_num - 1) = some line ∧
          1 ≤ r.line_num ∧ extract_text_from_line line = some r.text) ∧
    (∀ (bd : BaseDir) (rs : List Rep.RResult),
      Rep.process_files bd = .ok rs → ∀ r ∈ rs,
      ∃ d ∈ bd.dirs, d.1 = r.folder ∧
        ∃ f ∈ globAss d.2, f.name = r.file ∧
        ∃ line, (read_ass_file f).get? (r.line_num - 1) = some line ∧
          1 ≤ r.line_num ∧ pyContains line "Dialogue:" = true ∧
          extract_text_from_line line = some r.text) ∧
    (∀ (fo : Folder) (q f t : String) (n : Nat),
      Rep.find_text_in_folder (some fo) q = .ok (some (f, t, n)) →
      ∃ file ∈ globAss fo, file.name = f ∧
        ∃ line, (read_ass_file file).get? (n - 1) = some line ∧ 1 ≤ n ∧
          pyContains line "Dialogue:" = true ∧
          extract_text_from_line line = some t) := by
  refine ⟨?_, ?_, ?_⟩
  · intro bd range θ rs h r hr
    obtain ⟨name, -, fo, hdl, rs1, hfl, hr1⟩ := folderLoop_mem bd θ _ rs h r hr
    obtain ⟨f, hfg, rs2, hll, hr2⟩ := fileLoop_mem bd θ name _ rs1 hfl r hr1
    obtain ⟨p, hp, hlr⟩ := lineLoop_mem bd θ name f.name _ rs2 hll r hr2
    obtain ⟨hfold, hfile, hln, htext, -, -⟩ :=
      lineResult_shape bd θ name f.name p.2 p.1 r hlr
    obtain ⟨hs, hg⟩ := mem_pyEnum _ 1 p hp
    refine ⟨fo, by rw [hfold]; exact hdl, f, hfg, hfile.symm, p.2, ?_, ?_, htext⟩
    · rw [hln]; exact hg
    · rw [hln]; exact hs
  · intro bd rs h r hr
    obtain ⟨d, hd, rs1, hfl, hr1⟩ := rFolderLoop_mem bd _ rs h r hr
    obtain ⟨f, hfg, rs2, hll, hr2⟩ := rFileLoop_mem bd d.1 _ rs1 hfl r hr1
    obtain ⟨p, hp, hlr⟩ := rLineLoop_mem bd d.1 f.name _ rs2 hll r hr2
    obtain ⟨hfold, hfile, hln, hdia, htext⟩ :=
      rlineResult_fields bd d.1 f.name p.1 p.2 r hlr
    obtain ⟨hs, hg⟩ := mem_pyEnum _ 1 p hp
    have hd3 : d ∈ bd.dirs :=
      (List.mem_filter.mp (mem_sortDirs _ d hd)).1
    refine ⟨d, hd3, hfold.symm, f, hfg, hfile.symm, p.2, ?_, ?_, hdia, htext⟩
    · rw [hln]; exact hg
    · rw [hln]; exact hs
  · intro fo q f t n h
    obtain ⟨file, hfg, hname, line, hg, hs, hdia, hext⟩ :=
      cands_mem fo (f, t, n) (repFind_some_mem fo q f t n h)
    exact ⟨file, hfg, hname, line, hg, hs, hdia, hext⟩

/-- Witness for C6: applying the target-provenance part on the witness
folder: the located target line number 2 indexes the raw line list of
`b.ass`, where a dialogue-containing line with the matched text sits. -/
theorem c6_line_numbers_amended_witness :
    ∃ file ∈ globAss c6Fo, file.name = "b.ass" ∧
      ∃ line, (read_ass_file file).get? (2 - 1) = some line ∧ 1 ≤ 2 ∧
        pyContains line "Dialogue:" = true ∧
        extract_text_from_line line = some "replay 2 hi" :=
  c6_line_numbers_amended.2.2 c6Fo "replay 2 hi" "b.ass" "replay 2 hi" 2
    (by decide)
